import Mathlib

/-!
Verification development for the adaptive review engine of the
obsidian-tutor plugin.  The definitions below are a shallow embedding of
the TypeScript source (src/topic-manager.ts, src/review-view.ts,
src/types.ts): strings are lists of characters, JavaScript numbers that
can be `NaN` are `Option` values, `Date` values are `Option Int`
millisecond timestamps (`none` models an Invalid Date), and the external
ts-fsrs scheduler is an abstract function parameter.
-/

set_option linter.unusedVariables false

/-- Strings are modelled as lists of characters. -/
abbrev Str := List Char

/-- Conversion from a Lean string literal to the embedding's string type. -/
def str (s : String) : Str := s.toList

/-- Whitespace as matched by the regex class backslash-s and by
`String.prototype.trim` (the ASCII subset; rare Unicode space characters
are not modelled). -/
def isWS (c : Char) : Bool :=
  c = ' ' || c = '\t' || c = '\n' || c = '\r' || c = '\x0b' || c = '\x0c'

/-- Line terminators, which the regex metacharacter `.` does not match
(U+2028/U+2029 are not modelled; split lines never contain them here). -/
def isTerm (c : Char) : Bool := c = '\n' || c = '\r'

/-- Greedy consumption of leading whitespace (regex backslash-s-star). -/
def dropWS (s : Str) : Str := s.dropWhile isWS

/-- True when no character of `s` is a line terminator, i.e. the whole of
`s` can be matched by a run of regex `.` characters. -/
def noTerm (s : Str) : Bool := s.all (fun c => !(isTerm c))

/-- Whether `p` is a prefix of `s`, by character comparison. -/
def startsWith : Str → Str → Bool
  | [], _ => true
  | _ :: _, [] => false
  | p :: ps, c :: cs => (p = c) && startsWith ps cs

/-- Whether `p` is a suffix of `s`. -/
def endsWith (p s : Str) : Bool := startsWith p.reverse s.reverse

/-- JavaScript `String.prototype.trim`: strip whitespace from both ends. -/
def trimJS (s : Str) : Str := ((dropWS s).reverse.dropWhile isWS).reverse

/-- JavaScript `String.prototype.split` with a single-character separator:
`"".split(sep)` is `[""]`, and adjacent separators yield empty fields. -/
def splitOnChar (sep : Char) : Str → List Str
  | [] => [[]]
  | c :: rest =>
    if c = sep then [] :: splitOnChar sep rest
    else
      match splitOnChar sep rest with
      | [] => [[c]]
      | s :: ss => (c :: s) :: ss

/-- JavaScript `Array.prototype.join` with a single-character separator. -/
def joinChar (sep : Char) : List Str → Str
  | [] => []
  | [s] => s
  | s :: rest => s ++ sep :: joinChar sep rest

/-- Matcher for the topic-marker regex `^>\s*\[!topic\]\s*(.+)$` of
`getAllTopics`/`updateTopicInNote`, returning the capture group.  The
final greedy `\s*(.+)$` captures the remainder after the whitespace run
when it is nonempty (and free of line terminators, which `.` cannot
match); when the remainder is all whitespace, backtracking leaves exactly
the last whitespace character to `.+`. -/
def matchTopicMarker (line : Str) : Option Str :=
  match line with
  | '>' :: rest =>
    let r1 := dropWS rest
    if startsWith (str "[!topic]") r1 then
      let r2 := r1.drop 8
      let r3 := dropWS r2
      if r3 ≠ [] then
        if noTerm r3 then some r3 else none
      else
        match r2.getLast? with
        | some c => if isTerm c then none else some [c]
        | none => none
    else none
  | _ => none

/-- Matcher for the encoded-comment regex `^>\s*<!--(.+)-->$`, returning
the capture group.  The anchored `-->$` forces the literal to be the last
three characters, so the greedy capture is everything between `<!--` and
that final `-->`. -/
def matchDataComment (line : Str) : Option Str :=
  match line with
  | '>' :: rest =>
    let r1 := dropWS rest
    if startsWith (str "<!--") r1 then
      let r2 := r1.drop 4
      if decide (4 ≤ r2.length) && endsWith (str "-->") r2 then
        let mid := r2.take (r2.length - 3)
        if noTerm mid then some mid else none
      else none
    else none
  | _ => none

example : matchTopicMarker (str "> [!topic] Graph Theory") = some (str "Graph Theory") := by decide
example : matchTopicMarker (str ">[!topic]X") = some (str "X") := by decide
example : matchTopicMarker (str "> [!topic]") = none := by decide
example : matchTopicMarker (str "> [!note] X") = none := by decide
example : matchDataComment (str "> <!--a,b-->") = some (str "a,b") := by decide
example : matchDataComment (str "> <!---->") = none := by decide
example : matchDataComment (str "hello") = none := by decide

/-! Decimal numerals: JavaScript number-to-string for integers, and the
`parseInt` / `parseFloat` decoders used by `getAllTopics`. -/

/-- The decimal digit character for `d < 10`. -/
def digitChar (d : Nat) : Char := Char.ofNat (48 + d)

/-- Numeric value of a digit character. -/
def digVal (c : Char) : Nat := c.toNat - 48

/-- Decimal rendering of a natural number, as JavaScript stringifies an
integral number value.  `fuel` bounds the recursion and is always given
as `n + 1`, which suffices since `n / 10 < n` for `n ≥ 10`. -/
def natToStrAux : Nat → Nat → Str
  | 0, _ => []
  | f + 1, n =>
    if n < 10 then [digitChar n]
    else natToStrAux f (n / 10) ++ [digitChar (n % 10)]

/-- Decimal rendering of a natural number. -/
def natToStr (n : Nat) : Str := natToStrAux (n + 1) n

/-- Decimal rendering of an integer (template-literal interpolation of an
integral JavaScript number). -/
def intToStr (i : Int) : Str :=
  if i < 0 then '-' :: natToStr (-i).toNat else natToStr i.toNat

/-- Value of a string of decimal digits. -/
def digitsVal (s : Str) : Nat := s.foldl (fun a c => 10 * a + digVal c) 0

/-- Leading run of decimal digits. -/
def takeDigits (s : Str) : Str := s.takeWhile Char.isDigit

/-- JavaScript `parseInt(s)` (radix 10): skip leading whitespace, read an
optional sign and then a maximal run of digits; `none` models `NaN`.
Hexadecimal prefixes and other radices are not modelled. -/
def parseIntJS (s : Str) : Option Int :=
  match dropWS s with
  | '-' :: u =>
    if takeDigits u = [] then none else some (-(digitsVal (takeDigits u) : Int))
  | '+' :: u =>
    if takeDigits u = [] then none else some (digitsVal (takeDigits u))
  | u =>
    if takeDigits u = [] then none else some (digitsVal (takeDigits u))

/-- Unsigned part of `parseFloat`: integer digits, an optional decimal
point, fraction digits.  `none` models `NaN` (no digits at all). -/
def parseFloatCore (u : Str) : Option ℚ :=
  let ip := takeDigits u
  let u2 := u.drop ip.length
  match u2 with
  | '.' :: u3 =>
    let fp := takeDigits u3
    if ip = [] && fp = [] then none
    else some ((digitsVal ip : ℚ) + (digitsVal fp : ℚ) / (10 : ℚ) ^ fp.length)
  | _ => if ip = [] then none else some (digitsVal ip)

/-- JavaScript `parseFloat(s)`: skip leading whitespace, optional sign,
then digits with an optional fractional part.  Exponent notation is not
modelled (the persisted encoding never produces it). -/
def parseFloatJS (s : Str) : Option ℚ :=
  match dropWS s with
  | '-' :: u => (parseFloatCore u).map (fun q => -q)
  | '+' :: u => parseFloatCore u
  | u => parseFloatCore u

/-- Floor of a rational, computed directly from its reduced fraction so
that it evaluates by kernel reduction. -/
def qfl (q : ℚ) : Int := Int.fdiv q.num q.den

/-- The nonnegative integer `n` minimizing the distance of `n / 10` to a
nonnegative `x`, ties toward the larger `n` — the rounding performed by
`Number.prototype.toFixed(1)`. -/
def fix1 (x : ℚ) : Nat := (qfl (10 * x + 1/2)).toNat

/-- JavaScript `Number.prototype.toFixed(1)` for a finite rational: round
`10 * q` half away from zero, then print with one decimal place. -/
def qToFixed1 (q : ℚ) : Str :=
  if q < 0 then
    '-' :: (natToStr (fix1 (-q) / 10) ++ '.' :: [digitChar (fix1 (-q) % 10)])
  else
    natToStr (fix1 q / 10) ++ '.' :: [digitChar (fix1 q % 10)]

example : natToStr 0 = str "0" := by decide
example : natToStr 2024 = str "2024" := by decide
example : intToStr (-13) = str "-13" := by decide
example : parseIntJS (str "42abc") = some 42 := by decide
example : parseIntJS (str "x") = none := by decide

/-! Gregorian calendar arithmetic.  `Date.prototype.toISOString` and the
`Date` constructor's ISO parser convert between millisecond timestamps
and `YYYY-MM-DD` civil dates.  Both are modelled through day numbers
counted from 0000-03-01 ("rata" days, 719468 days before the Unix
epoch), using the standard era-based conversion. -/

/-- Year-of-era recovered from a day-of-era. -/
def doeYoe (doe : Nat) : Nat :=
  (doe - doe / 1460 + doe / 36524 - doe / 146096) / 365
def doeDoy (doe : Nat) : Nat :=
  doe - (365 * doeYoe doe + doeYoe doe / 4 - doeYoe doe / 100)
def doeMp (doe : Nat) : Nat := (5 * doeDoy doe + 2) / 153
def doeDay (doe : Nat) : Nat := doeDoy doe - (153 * doeMp doe + 2) / 5 + 1
def doeMonth (doe : Nat) : Nat :=
  if doeMp doe < 10 then doeMp doe + 3 else doeMp doe - 9
def yearOfRata (r : Nat) : Nat :=
  r / 146097 * 400 + doeYoe (r % 146097) + (if doeMonth (r % 146097) ≤ 2 then 1 else 0)
def monthOfRata (r : Nat) : Nat := doeMonth (r % 146097)
def dayOfRata (r : Nat) : Nat := doeDay (r % 146097)
def rataFromCivil (y m d : Nat) : Nat :=
  (if m ≤ 2 then y - 1 else y) / 400 * 146097 +
    ((if m ≤ 2 then y - 1 else y) % 400 * 365 + (if m ≤ 2 then y - 1 else y) % 400 / 4 -
      (if m ≤ 2 then y - 1 else y) % 400 / 100 +
      ((153 * (if 2 < m then m - 3 else m + 9) + 2) / 5 + d - 1))
def isLeap (y : Nat) : Bool := y % 4 = 0 && (y % 100 ≠ 0 || y % 400 = 0)
def daysInMonth (y m : Nat) : Nat :=
  if m = 2 then (if isLeap y then 29 else 28)
  else if m = 4 ∨ m = 6 ∨ m = 9 ∨ m = 11 then 30
  else 31
def ydAdj (y : Nat) : Nat := 365 * y + y / 4 - y / 100 + y / 400

theorem div_step_400 (y : Nat) :
    (y + 1) / 400 = y / 400 ∨ ((y + 1) % 400 = 0 ∧ (y + 1) / 400 = y / 400 + 1) := by
  omega

theorem div_step_100 (y : Nat) :
    (y + 1) / 100 = y / 100 ∨ ((y + 1) % 100 = 0 ∧ (y + 1) / 100 = y / 100 + 1) := by
  omega

theorem div_step_4 (y : Nat) :
    (y + 1) / 4 = y / 4 ∨ ((y + 1) % 4 = 0 ∧ (y + 1) / 4 = y / 4 + 1) := by
  omega

theorem mod_400_to_100 (y : Nat) : (y + 1) % 400 = 0 → (y + 1) % 100 = 0 := by
  omega

theorem year_span (y : Nat) : ydAdj (y + 1) ≤ ydAdj y + 366 := by
  have d1 := div_step_400 y
  have d2 := div_step_100 y
  have d3 := div_step_4 y
  have d4 := mod_400_to_100 y
  unfold ydAdj
  omega

theorem year_span_leap (y : Nat) (h : ydAdj y + 366 ≤ ydAdj (y + 1)) :
    (y + 1) % 4 = 0 ∧ ((y + 1) % 100 ≠ 0 ∨ (y + 1) % 400 = 0) := by
  have d1 := div_step_400 y
  have d2 := div_step_100 y
  have d3 := div_step_4 y
  have d4 := mod_400_to_100 y
  unfold ydAdj at h
  omega

theorem within_year (dy mp d : Nat) (hdy : dy ≤ 365)
    (hmp : mp = (5 * dy + 2) / 153) (hd : d = dy - (153 * mp + 2) / 5 + 1) :
    mp ≤ 11 ∧ 1 ≤ d ∧ (153 * mp + 2) / 5 + d - 1 = dy ∧
    (mp = 11 → d ≤ 28 ∨ (d = 29 ∧ dy = 365)) ∧
    ((mp = 1 ∨ mp = 3 ∨ mp = 6 ∨ mp = 8) → d ≤ 30) ∧
    d ≤ 31 := by
  subst hmp
  subst hd
  omega

theorem year_cover : ∀ doe : Nat, doe < 146097 →
    ∃ y : Nat, y ≤ 399 ∧ ydAdj y ≤ doe ∧ doe < ydAdj (y + 1) := by
  intro doe
  induction doe with
  | zero => exact fun _ => ⟨0, by decide, by decide, by decide⟩
  | succ doe ih =>
    intro h
    obtain ⟨y, hy, h1, h2⟩ := ih (by omega)
    by_cases hnext : doe + 1 < ydAdj (y + 1)
    · exact ⟨y, hy, by omega, hnext⟩
    · have hmono : ydAdj (y + 1) < ydAdj (y + 1 + 1) := by unfold ydAdj; omega
      have hy399 : y ≠ 399 := by
        intro hEq
        subst hEq
        have h400 : ydAdj (399 + 1) = 146097 := by decide
        omega
      exact ⟨y + 1, by omega, by omega, by omega⟩

set_option maxHeartbeats 4000000 in
theorem doeYoe_correct (y doe : Nat) (hy : y ≤ 399)
    (h1 : ydAdj y ≤ doe) (h2 : doe < ydAdj (y + 1)) : doeYoe doe = y := by
  unfold ydAdj at *
  unfold doeYoe
  interval_cases y <;> omega

theorem rata_inverse (r : Nat) :
    rataFromCivil (yearOfRata r) (monthOfRata r) (dayOfRata r) = r ∧
    1 ≤ monthOfRata r ∧ monthOfRata r ≤ 12 ∧
    1 ≤ dayOfRata r ∧ dayOfRata r ≤ daysInMonth (yearOfRata r) (monthOfRata r) := by
  have hdoe : r % 146097 < 146097 := Nat.mod_lt _ (by omega)
  obtain ⟨y, hy, h1, h2⟩ := year_cover (r % 146097) hdoe
  have hyoe : doeYoe (r % 146097) = y := doeYoe_correct y _ hy h1 h2
  have hspan := year_span y
  obtain ⟨dy, hdoy⟩ : ∃ dy, doeDoy (r % 146097) = dy := ⟨_, rfl⟩
  have hdyval : dy = r % 146097 - (365 * y + y / 4 - y / 100) := by
    rw [← hdoy]
    unfold doeDoy
    rw [hyoe]
  have hy400 : y / 400 = 0 := by omega
  have hdyb : dy ≤ 365 := by
    unfold ydAdj at h1 h2 hspan
    omega
  obtain ⟨mp, hmp⟩ : ∃ mp, doeMp (r % 146097) = mp := ⟨_, rfl⟩
  have hmpval : mp = (5 * dy + 2) / 153 := by
    rw [← hmp]
    unfold doeMp
    rw [hdoy]
  obtain ⟨d, hd⟩ : ∃ d, dayOfRata r = d := ⟨_, rfl⟩
  have hdval : d = dy - (153 * mp + 2) / 5 + 1 := by
    rw [← hd]
    unfold dayOfRata doeDay
    rw [hdoy, hmp]
  obtain ⟨hmp11, hd1, hinv, hfebd, h30d, h31d⟩ := within_year dy mp d hdyb hmpval hdval
  have hdoeval : r % 146097 = 365 * y + y / 4 - y / 100 + dy := by
    unfold ydAdj at h1
    omega
  by_cases hsmall : mp < 10
  · have hmon : monthOfRata r = mp + 3 := by
      unfold monthOfRata doeMonth
      rw [hmp, if_pos hsmall]
    have hyear : yearOfRata r = r / 146097 * 400 + y := by
      unfold yearOfRata doeMonth
      rw [hmp, if_pos hsmall, hyoe, if_neg (by omega : ¬ (mp + 3 ≤ 2))]
      omega
    refine ⟨?_, ?_, ?_, ?_, ?_⟩
    · unfold rataFromCivil
      rw [hmon, hyear, hd]
      rw [if_neg (by omega : ¬ (mp + 3 ≤ 2)), if_pos (by omega : 2 < mp + 3)]
      have e1 : (r / 146097 * 400 + y) / 400 = r / 146097 := by omega
      have e2 : (r / 146097 * 400 + y) % 400 = y := by omega
      have e3 : mp + 3 - 3 = mp := by omega
      rw [e1, e2, e3]
      omega
    · rw [hmon]; omega
    · rw [hmon]; omega
    · rw [hd]; omega
    · rw [hmon, hd]
      unfold daysInMonth
      rw [if_neg (by omega : ¬ (mp + 3 = 2))]
      by_cases h30 : mp + 3 = 4 ∨ mp + 3 = 6 ∨ mp + 3 = 9 ∨ mp + 3 = 11
      · rw [if_pos h30]; omega
      · rw [if_neg h30]; omega
  · have hmon : monthOfRata r = mp - 9 := by
      unfold monthOfRata doeMonth
      rw [hmp, if_neg hsmall]
    have hyear : yearOfRata r = r / 146097 * 400 + y + 1 := by
      unfold yearOfRata doeMonth
      rw [hmp, if_neg hsmall, hyoe, if_pos (by omega : mp - 9 ≤ 2)]
    have hleap : dy = 365 → isLeap (r / 146097 * 400 + y + 1) = true := by
      intro h365
      have hsp : ydAdj y + 366 ≤ ydAdj (y + 1) := by
        unfold ydAdj at h2 ⊢
        omega
      obtain ⟨hl4, hl100⟩ := year_span_leap y hsp
      unfold isLeap
      simp only [Bool.and_eq_true, Bool.or_eq_true, decide_eq_true_eq, ne_eq,
        decide_not, Bool.not_eq_true', decide_eq_false_iff_not]
      constructor
      · omega
      · rcases hl100 with hne | h400
        · left; omega
        · right; omega
    refine ⟨?_, ?_, ?_, ?_, ?_⟩
    · unfold rataFromCivil
      rw [hmon, hyear, hd]
      rw [if_pos (by omega : mp - 9 ≤ 2), if_neg (by omega : ¬ (2 < mp - 9))]
      have esub : r / 146097 * 400 + y + 1 - 1 = r / 146097 * 400 + y := by omega
      have e1 : (r / 146097 * 400 + y) / 400 = r / 146097 := by omega
      have e2 : (r / 146097 * 400 + y) % 400 = y := by omega
      have e4 : mp - 9 + 9 = mp := by omega
      rw [esub, e1, e2, e4]
      omega
    · rw [hmon]; omega
    · rw [hmon]; omega
    · rw [hd]; omega
    · rw [hmon, hd, hyear]
      unfold daysInMonth
      by_cases hfeb : mp - 9 = 2
      · rw [if_pos hfeb]
        have hmp11' : mp = 11 := by omega
        rcases (hfebd hmp11') with hle | ⟨h29, h365⟩
        · by_cases hl : isLeap (r / 146097 * 400 + y + 1) = true
          · rw [if_pos hl]; omega
          · rw [if_neg hl]; omega
        · rw [if_pos (hleap h365)]
          omega
      · rw [if_neg hfeb]
        by_cases h30 : mp - 9 = 4 ∨ mp - 9 = 6 ∨ mp - 9 = 9 ∨ mp - 9 = 11
        · rw [if_pos h30]; omega
        · rw [if_neg h30]; omega

/-! Facts about decimal rendering, used for the persistence round trip. -/

def padZeros (k : Nat) (s : Str) : Str := List.replicate (k - s.length) '0' ++ s

theorem digitChar_isDigit (d : Nat) (h : d ≤ 9) : (digitChar d).isDigit = true := by
  interval_cases d <;> decide

theorem digVal_digitChar (d : Nat) (h : d ≤ 9) : digVal (digitChar d) = d := by
  interval_cases d <;> decide

theorem digitsVal_cons (c : Char) (s : Str) :
    digitsVal (c :: s) = s.foldl (fun a c => 10 * a + digVal c) (digVal c) := by
  simp [digitsVal, List.foldl_cons]

theorem foldl_digits_init (s : Str) (a : Nat) :
    s.foldl (fun a c => 10 * a + digVal c) a = a * 10 ^ s.length + digitsVal s := by
  induction s generalizing a with
  | nil => simp [digitsVal]
  | cons c cs ih =>
    simp only [List.foldl_cons, digitsVal]
    rw [ih, ih (10 * 0 + digVal c)]
    ring_nf
    simp [pow_succ]
    ring

theorem digitsVal_append (a b : Str) :
    digitsVal (a ++ b) = digitsVal a * 10 ^ b.length + digitsVal b := by
  simp only [digitsVal, List.foldl_append]
  rw [foldl_digits_init]
  rfl

theorem natToStrAux_spec (f : Nat) : ∀ n, n < f →
    natToStrAux f n ≠ [] ∧ digitsVal (natToStrAux f n) = n ∧
    (∀ c ∈ natToStrAux f n, c.isDigit = true) := by
  induction f with
  | zero => intro n h; omega
  | succ f ih =>
    intro n h
    by_cases h10 : n < 10
    · refine ⟨by simp [natToStrAux, h10], ?_, ?_⟩
      · simp only [natToStrAux, if_pos h10]
        simp [digitsVal, digVal_digitChar n (by omega)]
      · intro c hc
        simp only [natToStrAux, if_pos h10, List.mem_singleton] at hc
        subst hc
        exact digitChar_isDigit n (by omega)
    · have hrec : n / 10 < f := by omega
      obtain ⟨hne, hval, hdig⟩ := ih (n / 10) hrec
      simp only [natToStrAux, if_neg h10]
      refine ⟨by simp, ?_, ?_⟩
      · rw [digitsVal_append, hval]
        simp [digitsVal, digVal_digitChar (n % 10) (by omega)]
        omega
      · intro c hc
        rcases List.mem_append.mp hc with h' | h'
        · exact hdig c h'
        · simp only [List.mem_singleton] at h'
          subst h'
          exact digitChar_isDigit _ (by omega)

theorem digitsVal_natToStr (n : Nat) : digitsVal (natToStr n) = n :=
  (natToStrAux_spec (n + 1) n (by omega)).2.1

theorem natToStr_ne_nil (n : Nat) : natToStr n ≠ [] :=
  (natToStrAux_spec (n + 1) n (by omega)).1

theorem natToStr_digits (n : Nat) : ∀ c ∈ natToStr n, c.isDigit = true :=
  (natToStrAux_spec (n + 1) n (by omega)).2.2

theorem natToStrAux_len (f : Nat) : ∀ n k, n < f → n < 10 ^ k → 1 ≤ k →
    (natToStrAux f n).length ≤ k := by
  induction f with
  | zero => intro n k h; omega
  | succ f ih =>
    intro n k h hk h1
    by_cases h10 : n < 10
    · simp [natToStrAux, if_pos h10]
      omega
    · simp only [natToStrAux, if_neg h10, List.length_append, List.length_singleton]
      have hk2 : 2 ≤ k := by
        by_contra hcon
        have : k = 1 := by omega
        subst this
        simp at hk
        omega
      have := ih (n / 10) (k - 1) (by omega) (by
        have : 10 ^ k = 10 * 10 ^ (k - 1) := by
          conv_lhs => rw [show k = 1 + (k - 1) by omega]
          rw [pow_add, pow_one]
        omega) (by omega)
      omega

theorem natToStr_len (n k : Nat) (hk : n < 10 ^ k) (h1 : 1 ≤ k) :
    (natToStr n).length ≤ k :=
  natToStrAux_len (n + 1) n k (by omega) hk h1

theorem digitsVal_padZeros (k : Nat) (s : Str) :
    digitsVal (padZeros k s) = digitsVal s := by
  unfold padZeros
  rw [digitsVal_append]
  have : ∀ m, digitsVal (List.replicate m '0') = 0 := by
    intro m
    induction m with
    | zero => rfl
    | succ m ih =>
      rw [List.replicate_succ, digitsVal_cons]
      rw [foldl_digits_init]
      simpa [digVal] using ih
  rw [this]
  simp

theorem padZeros_len (k : Nat) (s : Str) (h : s.length ≤ k) :
    (padZeros k s).length = k := by
  simp [padZeros]
  omega

theorem padZeros_digits (k : Nat) (s : Str) (h : ∀ c ∈ s, c.isDigit = true) :
    ∀ c ∈ padZeros k s, c.isDigit = true := by
  intro c hc
  rcases List.mem_append.mp hc with h' | h'
  · have := List.eq_of_mem_replicate h'
    subst this
    decide
  · exact h c h'

theorem list_len4 (l : Str) (h : l.length = 4) :
    ∃ a b c d, l = [a, b, c, d] := by
  match l, h with
  | [a, b, c, d], _ => exact ⟨a, b, c, d, rfl⟩

theorem list_len2 (l : Str) (h : l.length = 2) :
    ∃ a b, l = [a, b] := by
  match l, h with
  | [a, b], _ => exact ⟨a, b, rfl⟩

/-- ECMAScript `Date.prototype.toISOString`, date part only, for
timestamps whose year lies in 0..9999 (the spec's extended-year format
for years outside that range is not modelled) and not before the rata
epoch 0000-03-01. -/
def isoDatePart (t : Int) : Str :=
  padZeros 4 (natToStr (yearOfRata (Int.fdiv t 86400000 + 719468).toNat)) ++
    '-' :: (padZeros 2 (natToStr (monthOfRata (Int.fdiv t 86400000 + 719468).toNat)) ++
      '-' :: padZeros 2 (natToStr (dayOfRata (Int.fdiv t 86400000 + 719468).toNat)))

/-- ECMAScript ISO date-only parsing, `new Date("YYYY-MM-DD")`: exactly
ten characters, digits validated, month and day range-checked; the
result is the UTC-midnight timestamp.  Other `Date` input formats are
modelled as invalid. -/
def parseJSDate (s : Str) : Option Int :=
  match s with
  | [y1, y2, y3, y4, '-', m1, m2, '-', d1, d2] =>
    if y1.isDigit && y2.isDigit && y3.isDigit && y4.isDigit &&
        m1.isDigit && m2.isDigit && d1.isDigit && d2.isDigit then
      if 1 ≤ digitsVal [m1, m2] ∧ digitsVal [m1, m2] ≤ 12 ∧ 1 ≤ digitsVal [d1, d2] ∧
          digitsVal [d1, d2] ≤ daysInMonth (digitsVal [y1, y2, y3, y4]) (digitsVal [m1, m2]) then
        some (86400000 *
          ((rataFromCivil (digitsVal [y1, y2, y3, y4]) (digitsVal [m1, m2]) (digitsVal [d1, d2]) : Int)
            - 719468))
      else none
    else none
  | _ => none

set_option maxRecDepth 8000 in
theorem parseJSDate_isoDatePart (day : Int)
    (h0 : 0 ≤ day + 719468)
    (h9999 : yearOfRata (day + 719468).toNat ≤ 9999) :
    parseJSDate (isoDatePart (86400000 * day)) = some (86400000 * day) := by
  have hdiv : Int.fdiv (86400000 * day) 86400000 = day :=
    Int.mul_fdiv_cancel_left day (by norm_num)
  set r := (day + 719468).toNat with hr
  obtain ⟨hinv, hm1, hm12, hd1, hdim⟩ := rata_inverse r
  have hmlen : (natToStr (monthOfRata r)).length ≤ 2 :=
    natToStr_len _ 2 (by norm_num; omega) (by norm_num)
  have hdlen : (natToStr (dayOfRata r)).length ≤ 2 := by
    have : dayOfRata r ≤ 31 := by
      have := hdim
      unfold daysInMonth at this
      split_ifs at this <;> omega
    exact natToStr_len _ 2 (by omega) (by norm_num)
  have hylen : (natToStr (yearOfRata r)).length ≤ 4 :=
    natToStr_len _ 4 (by omega) (by norm_num)
  obtain ⟨a, b, c, d, hy4⟩ := list_len4 (padZeros 4 (natToStr (yearOfRata r)))
    (padZeros_len _ _ hylen)
  obtain ⟨e, f, hm2⟩ := list_len2 (padZeros 2 (natToStr (monthOfRata r)))
    (padZeros_len _ _ hmlen)
  obtain ⟨g, i, hd2⟩ := list_len2 (padZeros 2 (natToStr (dayOfRata r)))
    (padZeros_len _ _ hdlen)
  have hiso : isoDatePart (86400000 * day) =
      [a, b, c, d, '-', e, f, '-', g, i] := by
    unfold isoDatePart
    rw [hdiv, ← hr, hy4, hm2, hd2]
    rfl
  rw [hiso]
  have hyv : digitsVal [a, b, c, d] = yearOfRata r := by
    rw [← hy4, digitsVal_padZeros, digitsVal_natToStr]
  have hmv : digitsVal [e, f] = monthOfRata r := by
    rw [← hm2, digitsVal_padZeros, digitsVal_natToStr]
  have hdv : digitsVal [g, i] = dayOfRata r := by
    rw [← hd2, digitsVal_padZeros, digitsVal_natToStr]
  have hydig := padZeros_digits 4 (natToStr (yearOfRata r)) (natToStr_digits _)
  have hmdig := padZeros_digits 2 (natToStr (monthOfRata r)) (natToStr_digits _)
  have hddig := padZeros_digits 2 (natToStr (dayOfRata r)) (natToStr_digits _)
  rw [hy4] at hydig
  rw [hm2] at hmdig
  rw [hd2] at hddig
  simp only [parseJSDate]
  rw [if_pos (by
    simp only [Bool.and_eq_true]
    exact ⟨⟨⟨⟨⟨⟨⟨hydig a (by simp), hydig b (by simp)⟩, hydig c (by simp)⟩,
      hydig d (by simp)⟩, hmdig e (by simp)⟩, hmdig f (by simp)⟩,
      hddig g (by simp)⟩, hddig i (by simp)⟩)]
  rw [if_pos (by rw [hyv, hmv, hdv]; exact ⟨hm1, hm12, hd1, hdim⟩)]
  rw [hyv, hmv, hdv, hinv]
  congr 1
  omega

/-! The TopicCard data model and document scanning (`TopicManager.getAllTopics`
and `TopicManager.getDueTopics` of src/topic-manager.ts). -/

/-- Embedding of the `TopicCard` record of src/types.ts.  `file` is the
opaque document handle (an index into the vault's document list);
`nextReview` is a JavaScript `Date` (`none` = Invalid Date); `rating` is
the raw string stored by the unchecked `data[1] as Rating` cast (`none` =
`undefined`); the numeric fields are JavaScript numbers (`none` = `NaN`). -/
structure TopicCard where
  name : Str
  file : Nat
  content : Str
  nextReview : Option Int
  rating : Option Str
  interval : Option Int
  stability : Option ℚ
  difficulty : Option ℚ
  reps : Option Int
deriving DecidableEq

/-- The default ("new") card built by `getAllTopics` when the marker has
no parseable 6-field data comment: `nextReview = new Date()` (now),
`rating = undefined`, `interval = 1`, `stability = 2.5`,
`difficulty = 5.0`, `reps = 0`. -/
def newTopicCard (now : Int) (fileIdx : Nat) (content name : Str) : TopicCard :=
  { name := name, file := fileIdx, content := content,
    nextReview := some now, rating := none, interval := some 1,
    stability := some (5/2 : ℚ), difficulty := some (5 : ℚ), reps := some 0 }

/-- Decoding of a matched data-comment payload: split on commas; only a
6-field payload overrides the new-card defaults (`data.length === 6`). -/
def decodeTopicData (now : Int) (fileIdx : Nat) (content name payload : Str) : TopicCard :=
  match splitOnChar ',' payload with
  | [f0, f1, f2, f3, f4, f5] =>
    { name := name, file := fileIdx, content := content,
      nextReview := parseJSDate f0,
      rating := some f1,
      interval := parseIntJS f2,
      stability := parseFloatJS f3,
      difficulty := parseFloatJS f4,
      reps := parseIntJS f5 }
  | _ => newTopicCard now fileIdx content name

/-- The line loop of `getAllTopics`: scan for topic markers; when the
line after a marker matches the data-comment regex it is consumed
(`i++`) and decoded, otherwise the card takes the new-card defaults. -/
def scanLines (now : Int) (fileIdx : Nat) (content : Str) : List Str → List TopicCard
  | [] => []
  | [line] =>
    match matchTopicMarker line with
    | none => []
    | some cap => [newTopicCard now fileIdx content (trimJS cap)]
  | line :: next :: rest2 =>
    match matchTopicMarker line with
    | none => scanLines now fileIdx content (next :: rest2)
    | some cap =>
      match matchDataComment next with
      | none =>
        newTopicCard now fileIdx content (trimJS cap) ::
          scanLines now fileIdx content (next :: rest2)
      | some payload =>
        decodeTopicData now fileIdx content (trimJS cap) payload ::
          scanLines now fileIdx content rest2

/-- `TopicManager.getAllTopics`: scan every document of the vault;
each document is split on newlines and contributes its cards, with the
whole document text as `content`. -/
def getAllTopics (now : Int) (docs : List Str) : List TopicCard :=
  (docs.enum.map (fun p => scanLines now p.1 p.2 (splitOnChar '\n' p.2))).join

/-- JavaScript relational `<=` applied to two `Date` values: comparison
of timestamps, false whenever either date is invalid (`NaN`). -/
def jsDateLE (a b : Option Int) : Bool :=
  match a, b with
  | some x, some y => decide (x ≤ y)
  | _, _ => false

/-- `TopicManager.getDueTopics`: all topics whose `nextReview <= now`. -/
def getDueTopics (now : Int) (docs : List Str) : List TopicCard :=
  (getAllTopics now docs).filter (fun t => jsDateLE t.nextReview (some now))

/-- C1: for every scanned topic, `getDueTopics` returns exactly the
topics whose `nextReview` is `<=` the current time; a timestamp equal to
`now` (tie) is due, and a timestamp strictly in the future (in
particular one second, i.e. 1000 ms, ahead) is not. -/
theorem C1_getDueTopics_filter (now : Int) (docs : List Str) (t : TopicCard) :
    (t ∈ getDueTopics now docs ↔
      t ∈ getAllTopics now docs ∧ jsDateLE t.nextReview (some now) = true) ∧
    jsDateLE (some now) (some now) = true ∧
    jsDateLE (some (now + 1000)) (some now) = false ∧
    jsDateLE (some (now - 1000)) (some now) = true := by
  refine ⟨List.mem_filter, ?_, ?_, ?_⟩ <;> simp [jsDateLE] <;> omega

/-- Fallback of the payload decoder: any payload that does not split
into exactly 6 comma-separated fields leaves the new-card defaults. -/
theorem decodeTopicData_not6 (now : Int) (fileIdx : Nat) (content name payload : Str)
    (h : (splitOnChar ',' payload).length ≠ 6) :
    decodeTopicData now fileIdx content name payload =
      newTopicCard now fileIdx content name := by
  unfold decodeTopicData
  rcases hsp : splitOnChar ',' payload with _ | ⟨a, _ | ⟨b, _ | ⟨c, _ | ⟨d, _ | ⟨e, _ | ⟨f, _ | ⟨g, l⟩⟩⟩⟩⟩⟩⟩ <;>
    simp_all

/-- C2: a topic marker whose following line is absent, does not match the
encoded-comment regex, or carries a payload that does not split into 6
comma-separated fields, yields the new-card defaults: `nextReview = now`,
no rating, `interval = 1`, `stability = 2.5`, `difficulty = 5.0`,
`reps = 0`.  The three scan equations cover the three cases, and the
remaining conjuncts state the default card's field values. -/
theorem C2_new_card_defaults (now : Int) (fileIdx : Nat) (content line cap : Str)
    (hm : matchTopicMarker line = some cap) :
    scanLines now fileIdx content [line] =
      [newTopicCard now fileIdx content (trimJS cap)] ∧
    (∀ next rest2, matchDataComment next = none →
      scanLines now fileIdx content (line :: next :: rest2) =
        newTopicCard now fileIdx content (trimJS cap) ::
          scanLines now fileIdx content (next :: rest2)) ∧
    (∀ next rest2 payload, matchDataComment next = some payload →
      (splitOnChar ',' payload).length ≠ 6 →
      scanLines now fileIdx content (line :: next :: rest2) =
        newTopicCard now fileIdx content (trimJS cap) ::
          scanLines now fileIdx content rest2) ∧
    (newTopicCard now fileIdx content (trimJS cap)).nextReview = some now ∧
    (newTopicCard now fileIdx content (trimJS cap)).rating = none ∧
    (newTopicCard now fileIdx content (trimJS cap)).interval = some 1 ∧
    (newTopicCard now fileIdx content (trimJS cap)).stability = some (5/2 : ℚ) ∧
    (newTopicCard now fileIdx content (trimJS cap)).difficulty = some (5 : ℚ) ∧
    (newTopicCard now fileIdx content (trimJS cap)).reps = some 0 := by
  refine ⟨?_, ?_, ?_, rfl, rfl, rfl, rfl, rfl, rfl⟩
  · simp [scanLines, hm]
  · intro next rest2 hd
    simp [scanLines, hm, hd]
  · intro next rest2 payload hd h6
    simp [scanLines, hm, hd, decodeTopicData_not6 now fileIdx content (trimJS cap) payload h6]

/-- Witness for C2 at a concrete marker line with a malformed (5-field)
payload on the following line. -/
theorem C2_new_card_defaults_witness :
    scanLines 0 0 [] (str "> [!topic] Graph Theory" :: str "> <!--2024-01-01,good,3,2.5,5.0-->" :: []) =
      newTopicCard 0 0 [] (trimJS (str "Graph Theory")) :: scanLines 0 0 [] [] ∧
    (newTopicCard 0 0 [] (trimJS (str "Graph Theory"))).reps = some 0 := by
  have h := C2_new_card_defaults 0 0 [] (str "> [!topic] Graph Theory") (str "Graph Theory")
    (by decide)
  exact ⟨h.2.2.1 _ [] (str "2024-01-01,good,3,2.5,5.0") (by decide) (by decide),
    h.2.2.2.2.2.2.2.2⟩

/-! Round trips of the numeric encoders against the JavaScript parsers. -/

theorem isDigit_toNat (c : Char) (h : c.isDigit = true) : 48 ≤ c.toNat ∧ c.toNat ≤ 57 := by
  simp only [Char.isDigit, Bool.and_eq_true, decide_eq_true_eq, Char.le_def, ge_iff_le] at h
  obtain ⟨h1, h2⟩ := h
  rw [UInt32.le_def] at h1 h2
  exact ⟨h1, h2⟩

theorem isDigit_not_isWS (c : Char) (h : c.isDigit = true) : isWS c = false := by
  have := isDigit_toNat c h
  unfold isWS
  simp only [Bool.or_eq_false_iff, decide_eq_false_iff_not]
  refine ⟨⟨⟨⟨⟨?_, ?_⟩, ?_⟩, ?_⟩, ?_⟩, ?_⟩ <;> (rintro rfl; revert this; decide)

theorem isDigit_ne (c : Char) (h : c.isDigit = true) :
    c ≠ '-' ∧ c ≠ '+' ∧ c ≠ ',' ∧ c ≠ '\n' ∧ c ≠ '.' ∧ isTerm c = false := by
  have := isDigit_toNat c h
  refine ⟨?_, ?_, ?_, ?_, ?_, ?_⟩
  case _ => rintro rfl; revert this; decide
  case _ => rintro rfl; revert this; decide
  case _ => rintro rfl; revert this; decide
  case _ => rintro rfl; revert this; decide
  case _ => rintro rfl; revert this; decide
  case _ =>
    unfold isTerm
    simp only [Bool.or_eq_false_iff, decide_eq_false_iff_not]
    refine ⟨?_, ?_⟩ <;> (rintro rfl; revert this; decide)

theorem dropWS_all_digits (s : Str) (h : ∀ c ∈ s, c.isDigit = true) : dropWS s = s := by
  cases s with
  | nil => rfl
  | cons c cs =>
    unfold dropWS
    rw [List.dropWhile_cons_of_neg]
    simp [isDigit_not_isWS c (h c (by simp))]

theorem takeDigits_all (s : Str) (h : ∀ c ∈ s, c.isDigit = true) : takeDigits s = s := by
  induction s with
  | nil => rfl
  | cons c cs ih =>
    unfold takeDigits
    rw [List.takeWhile_cons_of_pos (h c (by simp))]
    have := ih (fun c hc => h c (by simp [hc]))
    unfold takeDigits at this
    rw [this]

theorem takeDigits_append_stop (xs ys : Str) (c : Char)
    (hx : ∀ a ∈ xs, a.isDigit = true) (hc : c.isDigit = false) :
    takeDigits (xs ++ c :: ys) = xs := by
  induction xs with
  | nil => unfold takeDigits; rw [List.nil_append, List.takeWhile_cons_of_neg (by simp [hc])]
  | cons a as ih =>
    unfold takeDigits
    rw [List.cons_append, List.takeWhile_cons_of_pos (hx a (by simp))]
    have := ih (fun a ha => hx a (by simp [ha]))
    unfold takeDigits at this
    rw [this]

theorem parseIntJS_natToStr (n : Nat) : parseIntJS (natToStr n) = some (n : Int) := by
  unfold parseIntJS
  rw [dropWS_all_digits _ (natToStr_digits n)]
  rcases hs : natToStr n with _ | ⟨a, v⟩
  · exact absurd hs (natToStr_ne_nil n)
  · have hadig : a.isDigit = true := by
      apply natToStr_digits n; rw [hs]; simp
    have hna := isDigit_ne a hadig
    have htk : takeDigits (a :: v) = a :: v := by
      rw [← hs]; exact takeDigits_all _ (natToStr_digits n)
    have hval : digitsVal (a :: v) = n := by
      rw [← hs]; exact digitsVal_natToStr n
    split
    · rename_i u heq
      injection heq with h1 h2
      exact absurd h1 hna.1
    · rename_i u heq
      injection heq with h1 h2
      exact absurd h1 hna.2.1
    · rw [htk, if_neg (by simp), hval]

theorem parseIntJS_intToStr (i : Int) : parseIntJS (intToStr i) = some i := by
  unfold intToStr
  by_cases hneg : i < 0
  · rw [if_pos hneg]
    unfold parseIntJS
    have hdrop : dropWS ('-' :: natToStr (-i).toNat) = '-' :: natToStr (-i).toNat := by
      unfold dropWS
      rw [List.dropWhile_cons_of_neg (by decide)]
    rw [hdrop]
    split
    · rename_i u heq
      injection heq with h1 h2
      subst h2
      rw [takeDigits_all _ (natToStr_digits (-i).toNat)]
      rw [if_neg (natToStr_ne_nil _)]
      rw [digitsVal_natToStr]
      rw [Int.toNat_of_nonneg (by omega : (0 : Int) ≤ -i)]
      simp
    · rename_i u heq
      injection heq with h1 h2
      exact absurd h1 (by decide)
    · rename_i hn1 hn2
      exact absurd rfl (hn1 (natToStr (-i).toNat))
  · rw [if_neg hneg]
    rw [parseIntJS_natToStr]
    rw [Int.toNat_of_nonneg (by omega : (0 : Int) ≤ i)]

theorem qfl_eq_floor (q : ℚ) : qfl q = ⌊q⌋ := by
  rw [Rat.floor_def]
  unfold qfl
  rw [Int.fdiv_eq_ediv _ (by positivity)]

theorem fix1_spec (q : ℚ) (h : 0 ≤ q) :
    (fix1 q : ℚ) ≤ 10 * q + 1/2 ∧ 10 * q - 1/2 < (fix1 q : ℚ) := by
  unfold fix1
  rw [qfl_eq_floor]
  have h0 : (0 : ℚ) ≤ 10 * q + 1/2 := by linarith
  have hfl : (0 : ℤ) ≤ ⌊10 * q + 1/2⌋ := Int.floor_nonneg.mpr h0
  have hcast : ((⌊10 * q + 1/2⌋.toNat : ℤ) : ℚ) = ((⌊10 * q + 1/2⌋ : ℤ) : ℚ) := by
    rw [Int.toNat_of_nonneg hfl]
  constructor
  · push_cast at hcast ⊢
    rw [hcast]
    exact Int.floor_le _
  · push_cast at hcast ⊢
    rw [hcast]
    have := Int.lt_floor_add_one (10 * q + 1/2)
    linarith

theorem parseFloatCore_shape (A B : Nat) (hB : B ≤ 9) :
    parseFloatCore (natToStr A ++ '.' :: [digitChar B]) =
      some ((A : ℚ) + (B : ℚ) / 10) := by
  unfold parseFloatCore
  have htk : takeDigits (natToStr A ++ '.' :: [digitChar B]) = natToStr A :=
    takeDigits_append_stop _ _ _ (natToStr_digits _) (by decide)
  rw [htk]
  simp only [List.drop_left]
  have hfp : takeDigits [digitChar B] = [digitChar B] := by
    apply takeDigits_all
    intro c hc
    simp only [List.mem_singleton] at hc
    subst hc
    exact digitChar_isDigit _ hB
  simp only [hfp]
  rw [if_neg (by simp [natToStr_ne_nil A])]
  rw [digitsVal_natToStr]
  have hB' : digitsVal [digitChar B] = B := by
    unfold digitsVal
    simp [digVal_digitChar _ hB]
  rw [hB']
  norm_num

theorem parseFloatJS_qToFixed1 (q : ℚ) (h : 0 ≤ q) :
    parseFloatJS (qToFixed1 q) = some ((fix1 q : ℚ) / 10) ∧
    |((fix1 q : ℚ) / 10) - q| ≤ 1/20 := by
  constructor
  · unfold qToFixed1
    rw [if_neg (by linarith)]
    unfold parseFloatJS
    have hdrop : dropWS (natToStr (fix1 q / 10) ++ '.' :: [digitChar (fix1 q % 10)]) =
        natToStr (fix1 q / 10) ++ '.' :: [digitChar (fix1 q % 10)] := by
      rcases hs : natToStr (fix1 q / 10) with _ | ⟨a, v⟩
      · exact absurd hs (natToStr_ne_nil _)
      · unfold dropWS
        rw [List.cons_append, List.dropWhile_cons_of_neg]
        have hadig : a.isDigit = true := by
          apply natToStr_digits (fix1 q / 10); rw [hs]; simp
        simp [isDigit_not_isWS a hadig]
    rw [hdrop]
    have hshape := parseFloatCore_shape (fix1 q / 10) (fix1 q % 10) (by omega)
    split
    · rename_i u heq
      exfalso
      rcases hs : natToStr (fix1 q / 10) with _ | ⟨a, v⟩
      · exact absurd hs (natToStr_ne_nil _)
      · rw [hs, List.cons_append] at heq
        injection heq with h1 h2
        have hadig : a.isDigit = true := by
          apply natToStr_digits (fix1 q / 10); rw [hs]; simp
        exact (isDigit_ne a hadig).1 h1
    · rename_i u heq
      exfalso
      rcases hs : natToStr (fix1 q / 10) with _ | ⟨a, v⟩
      · exact absurd hs (natToStr_ne_nil _)
      · rw [hs, List.cons_append] at heq
        injection heq with h1 h2
        have hadig : a.isDigit = true := by
          apply natToStr_digits (fix1 q / 10); rw [hs]; simp
        exact (isDigit_ne a hadig).2.1 h1
    · rw [hshape]
      congr 1
      have hn : ((fix1 q / 10 * 10 + fix1 q % 10 : Nat) : ℚ) = ((fix1 q : Nat) : ℚ) := by
        exact_mod_cast congrArg (fun n : Nat => (n : ℚ))
          (by omega : fix1 q / 10 * 10 + fix1 q % 10 = fix1 q)
      push_cast at hn
      field_simp
      linarith
  · obtain ⟨hub, hlb⟩ := fix1_spec q h
    rw [abs_le]
    constructor <;> [linarith; linarith]

/-! The scheduler boundary and `TopicManager.updateTopicInNote`
(src/topic-manager.ts). -/

/-- The four graded outcomes of the ts-fsrs `Rating` enum used as `Grade`. -/
inductive Grade | Again | Hard | Good | Easy
deriving DecidableEq

/-- `TopicManager.mapRatingToFSRSRating`: a switch over the four rating
labels with no default clause, so any other string yields `undefined`
(`none`). -/
def mapRatingToFSRSRating (rating : Str) : Option Grade :=
  if rating = str "again" then some .Again
  else if rating = str "hard" then some .Hard
  else if rating = str "good" then some .Good
  else if rating = str "easy" then some .Easy
  else none

/-- The lifecycle phase values the source assigns (`State.New` /
`State.Review`). -/
inductive FSRSState | New | Review
deriving DecidableEq

/-- The `Card` record literal built by `updateTopicInNote` from the
topic's stored state and handed to the external scheduler. -/
structure FSRSCardIn where
  due : Option Int
  stability : Option ℚ
  difficulty : Option ℚ
  elapsed_days : Option Int
  scheduled_days : Option Int
  learning_steps : Nat
  reps : Option Int
  lapses : Nat
  state : FSRSState
deriving DecidableEq

/-- The card returned by the external ts-fsrs `next` call: finite
numbers, a valid due date, and whole-day interval counts. -/
structure FSRSCardOut where
  due : Int
  stability : ℚ
  difficulty : ℚ
  scheduled_days : Int
  reps : Int
deriving DecidableEq

/-- The external scheduler (`fsrsInstance.next`) as an opaque function of
the card, the review time, and the (possibly undefined) grade. -/
abbrev FSRSNext := FSRSCardIn → Int → Option Grade → FSRSCardOut

/-- The card constructed from a topic by `updateTopicInNote`
(`state` is `New` exactly when `reps === 0`). -/
def cardOfTopic (topic : TopicCard) : FSRSCardIn :=
  { due := topic.nextReview, stability := topic.stability,
    difficulty := topic.difficulty, elapsed_days := topic.interval,
    scheduled_days := topic.interval, learning_steps := 0,
    reps := topic.reps, lapses := 0,
    state := if topic.reps = some 0 then .New else .Review }

/-- The inline data comment written back by `updateTopicInNote`:
`> <!--nextReview,rating,interval,stability,difficulty,reps-->`. -/
def mkDataComment (nextReviewDate newRating : Str) (scheduledDays : Int)
    (stability difficulty : ℚ) (reps : Int) : Str :=
  '>' :: ' ' :: '<' :: '!' :: '-' :: '-' ::
    (nextReviewDate ++ ',' :: (newRating ++ ',' :: (intToStr scheduledDays ++
      ',' :: (qToFixed1 stability ++ ',' :: (qToFixed1 difficulty ++
        ',' :: (intToStr reps ++ '-' :: '-' :: ['>']))))))

/-- The marker-search-and-splice loop of `updateTopicInNote`: find the
first line matching the topic-marker regex whose trimmed name equals the
topic's name, then overwrite the following data-comment line if present,
or insert a new one; `none` when no marker matches (`updated` stays
false and no write happens). -/
def insertDataLine (name dataComment : Str) : List Str → Option (List Str)
  | [] => none
  | line :: rest =>
    match matchTopicMarker line, rest with
    | some cap, next :: rest2 =>
      if trimJS cap = name then
        if (matchDataComment next).isSome then some (line :: dataComment :: rest2)
        else some (line :: dataComment :: next :: rest2)
      else (insertDataLine name dataComment (next :: rest2)).map (line :: ·)
    | some cap, [] =>
      if trimJS cap = name then some [line, dataComment] else none
    | none, [] => none
    | none, next :: rest2 => (insertDataLine name dataComment (next :: rest2)).map (line :: ·)

/-- `TopicManager.updateTopicInNote` as a pure document transformation:
build the FSRS card, invoke the external scheduler, format the new data
comment (interval floored by `Math.max(1, ...)`), and splice it next to
the first matching marker.  `none` models the error path (`Notice` and
no `vault.modify` call). -/
def updateTopicInNote (fsrsNext : FSRSNext) (topic : TopicCard) (newRating : Str)
    (content : Str) (now : Int) : Option Str :=
  let newCard := fsrsNext (cardOfTopic topic) now (mapRatingToFSRSRating newRating)
  let dataComment := mkDataComment (isoDatePart newCard.due) newRating
    (max 1 newCard.scheduled_days) newCard.stability newCard.difficulty newCard.reps
  (insertDataLine topic.name dataComment (splitOnChar '\n' content)).map (joinChar '\n')

theorem insertDataLine_none (name dataComment : Str) (ls : List Str)
    (h : ∀ line ∈ ls, ∀ cap, matchTopicMarker line = some cap → trimJS cap ≠ name) :
    insertDataLine name dataComment ls = none := by
  induction ls with
  | nil => rfl
  | cons line rest ih =>
    have hline := h line (by simp)
    have hrest : ∀ l ∈ rest, ∀ cap, matchTopicMarker l = some cap → trimJS cap ≠ name :=
      fun l hl => h l (by simp [hl])
    rcases rest with _ | ⟨next, rest2⟩
    · rcases hm : matchTopicMarker line with _ | cap
      · simp [insertDataLine, hm]
      · simp [insertDataLine, hm, hline cap hm]
    · rcases hm : matchTopicMarker line with _ | cap
      · simp [insertDataLine, hm, ih hrest]
      · simp [insertDataLine, hm, hline cap hm, ih hrest]

theorem insertDataLine_mem (name dataComment : Str) (ls ls' : List Str)
    (h : insertDataLine name dataComment ls = some ls') :
    dataComment ∈ ls' := by
  induction ls generalizing ls' with
  | nil => exact absurd h (by simp [insertDataLine])
  | cons line rest ih =>
    rcases hrest : rest with _ | ⟨next, rest2⟩ <;> rw [hrest] at h <;>
      rcases hm : matchTopicMarker line with _ | cap
    · simp [insertDataLine, hm] at h
    · simp [insertDataLine, hm] at h
      obtain ⟨-, h2⟩ := h
      subst h2
      simp
    · simp [insertDataLine, hm] at h
      obtain ⟨a, ha, rfl⟩ := h
      exact List.mem_cons_of_mem _ (ih a (hrest ▸ ha))
    · by_cases hn : trimJS cap = name
      · by_cases hd : (matchDataComment next).isSome
        · simp [insertDataLine, hm, hn, hd] at h
          subst h
          simp
        · simp [insertDataLine, hm, hn, hd] at h
          subst h
          simp
      · simp [insertDataLine, hm, hn] at h
        obtain ⟨a, ha, rfl⟩ := h
        exact List.mem_cons_of_mem _ (ih a (hrest ▸ ha))

/-! The conversational review session (`ReviewView` of src/review-view.ts):
XML verdict extraction, the `awaitingReply` gate, and the event steps of
the single-threaded, event-driven session. -/

/-- Split `s` around the first occurrence of `pat`, returning the parts
before and after it. -/
def splitFirst (pat : Str) : Str → Option (Str × Str)
  | [] => if pat = [] then some ([], []) else none
  | c :: rest =>
    if startsWith pat (c :: rest) then some ([], (c :: rest).drop pat.length)
    else
      match splitFirst pat rest with
      | some (b, a) => some (c :: b, a)
      | none => none

/-- Lazy capture of `/<open>([\s\S]*?)<\/close>/`: the regex matches at
the first occurrence of the opening tag that is followed by a closing
tag, and the lazy group captures up to the first closing tag after it.
When the first opening tag has no closing tag after it, no later one has
either, so the whole pattern fails. -/
def tagCapture (openTag closeTag resp : Str) : Option Str :=
  match splitFirst openTag resp with
  | none => none
  | some (_, rest1) =>
    match splitFirst closeTag rest1 with
    | some (mid, _) => some mid
    | none => none

/-- `ReviewView.parseXMLResponse`: require a `<message>` tag and a
`<rating>` tag (each throws its own error when missing); the trimmed
rating text `"null"` maps to `null`, any other trimmed text is kept
verbatim — membership in the four rating labels is not checked. -/
def parseXMLResponse (response : Str) : Except Str (Str × Option Str) :=
  match tagCapture (str "<message>") (str "</message>") response with
  | none => .error (str "No <message> tag found in response")
  | some messageRaw =>
    match tagCapture (str "<rating>") (str "</rating>") response with
    | none => .error (str "No <rating> tag found in response")
    | some ratingRaw =>
      .ok (trimJS messageRaw,
        if trimJS ratingRaw = str "null" then none else some (trimJS ratingRaw))

/-- JavaScript `String.prototype.toLowerCase` (ASCII model). -/
def toLowerCaseJS (s : Str) : Str := s.map Char.toLower

/-- One entry of the `conversation` array of `ReviewView`. -/
structure ConvMsg where
  sender : Str
  content : Str
  rawContent : Option Str
deriving DecidableEq

/-- The state of a review session: the `ReviewView` fields (`topics`,
`currentTopicIndex`, `conversation`, `isWaitingForAI`, the disabled
flags of the input textarea and the Next button) together with the vault
documents and `pending`, the number of in-flight Completion Service
calls of the asynchronous execution model (a reply event can only fire
while a call is outstanding). -/
structure SessionState where
  topics : List TopicCard
  currentTopicIndex : Nat
  conversation : List ConvMsg
  isWaitingForAI : Bool
  inputDisabled : Bool
  nextBtnDisabled : Bool
  docs : List Str
  pending : Nat
deriving DecidableEq

/-- Observable effects of one event step: UI messages rendered, the
rating handed to `updateTopicInNote` when it was invoked, whether the
persistence error `Notice` fired, and whether this processing itself
issued a Completion Service call. -/
structure StepEffects where
  uiMessages : List (Str × Str)
  persistRating : Option Str
  noticeError : Bool
  issuedCall : Bool
deriving DecidableEq

/-- The empty effects record. -/
def noEffects : StepEffects :=
  { uiMessages := [], persistRating := none, noticeError := false, issuedCall := false }

/-- Append a rendered UI message to the effects. -/
def addUI (e : StepEffects) (sender content : Str) : StepEffects :=
  { e with uiMessages := e.uiMessages ++ [(sender, content)] }

/-- Entry of `callAI`: the `awaitingReply` gate.  When a call is already
outstanding the invocation is ignored (early return); otherwise the flag
is set, the Next button is disabled (`updateNextButton`), and a call is
issued. -/
def callAIStart (s : SessionState) : SessionState × Bool :=
  if s.isWaitingForAI then (s, false)
  else
    ({ s with
        isWaitingForAI := true
        nextBtnDisabled := true
        pending := s.pending + 1 }, true)

/-- Resolution of a Completion Service reply inside `callAI`: parse the
XML verdict; on failure disable input and surface the malformed-output
error; on success append the tutor message, and when the rating is
non-null lowercase it, invoke `updateTopicInNote`, and disable input.
In all cases `isWaitingForAI` is finally cleared and the Next button
re-enabled. -/
def callAIResolve (fsrsNext : FSRSNext) (now : Int) (s : SessionState) (response : Str) :
    SessionState × StepEffects :=
  match parseXMLResponse response with
  | .error _ =>
    ({ s with
        inputDisabled := true
        isWaitingForAI := false
        nextBtnDisabled := false
        pending := s.pending - 1 },
     addUI noEffects (str "System")
       (str "Error: Tutor did not return valid XML: " ++ response))
  | .ok (message, ratingOpt) =>
    let s1 := { s with conversation :=
      s.conversation ++ [(⟨str "Tutor", message, some (trimJS response)⟩ : ConvMsg)] }
    let e1 := addUI noEffects (str "Tutor") message
    match ratingOpt with
    | none =>
      ({ s1 with
          isWaitingForAI := false
          nextBtnDisabled := false
          pending := s1.pending - 1 }, e1)
    | some rating =>
      match s1.topics[s1.currentTopicIndex]? with
      | none =>
        -- `getCurrentTopic` returns null past the queue; the non-null
        -- assertion `currentTopic!` would fault, unreachable in the
        -- reachable states (loadTopics only calls with a current topic).
        ({ s1 with
            isWaitingForAI := false
            nextBtnDisabled := false
            pending := s1.pending - 1 }, e1)
      | some topic =>
        let normalizedRating := toLowerCaseJS rating
        match updateTopicInNote fsrsNext topic normalizedRating
            (s1.docs.getD topic.file []) now with
        | some newDoc =>
          ({ s1 with
              docs := s1.docs.set topic.file newDoc
              inputDisabled := true
              isWaitingForAI := false
              nextBtnDisabled := false
              pending := s1.pending - 1 },
           addUI { e1 with persistRating := some normalizedRating }
             (str "System") (str "Review completed"))
        | none =>
          ({ s1 with
              inputDisabled := true
              isWaitingForAI := false
              nextBtnDisabled := false
              pending := s1.pending - 1 },
           addUI { e1 with
               persistRating := some normalizedRating
               noticeError := true }
             (str "System") (str "Review completed"))

/-- Rejection of a Completion Service call (the outer catch of `callAI`:
transport errors): disable input, show the error, clear the gate. -/
def callAIReject (s : SessionState) (errMsg : Str) : SessionState × StepEffects :=
  ({ s with
      inputDisabled := true
      isWaitingForAI := false
      nextBtnDisabled := false
      pending := s.pending - 1 },
   addUI noEffects (str "System") (str "Error: " ++ errMsg))

/-- `ReviewView.sendMessage`: an empty (trimmed) message or an
outstanding call causes the submission to be dropped; otherwise the
student message is appended (with its `<student>` envelope) and `callAI`
is invoked. -/
def sendMessageStep (s : SessionState) (text : Str) : SessionState × Bool :=
  if trimJS text = [] ∨ s.isWaitingForAI then (s, false)
  else
    callAIStart { s with
      conversation := s.conversation ++
        [(⟨str "You", trimJS text,
          some (str "<student>\n  <message>" ++ trimJS text ++ str "</message>\n</student>")⟩ : ConvMsg)] }

/-- `ReviewView.nextTopic`: advance the cursor, clear the conversation,
re-enable input and start the next tutor turn; on the last topic only a
completion message is shown. -/
def nextTopicStep (s : SessionState) : SessionState × Bool :=
  if s.currentTopicIndex < s.topics.length - 1 then
    callAIStart { s with
      currentTopicIndex := s.currentTopicIndex + 1
      conversation := []
      inputDisabled := false }
  else (s, false)

/-- `ReviewView.loadTopics` (via `setState`): reset the queue and
conversation, re-render (a fresh, enabled input textarea; the Next
button disabled state mirrors `isWaitingForAI`), then issue the first
tutor turn when a current topic exists. -/
def loadTopicsStep (s : SessionState) (topics : List TopicCard) : SessionState × Bool :=
  let s1 := { s with
    topics := topics
    currentTopicIndex := 0
    conversation := []
    inputDisabled := false
    nextBtnDisabled := s.isWaitingForAI }
  if topics.isEmpty then (s1, false) else callAIStart s1

/-- The event-step relation of the session: UI events (`load`, `submit`,
`nextClick` — the latter only fires while the Next button is enabled,
since a disabled button receives no clicks) and the resolution or
rejection of an outstanding Completion Service call. -/
inductive SessionStep (fsrsNext : FSRSNext) : SessionState → SessionState → Prop
  | load (s : SessionState) (topics : List TopicCard) :
      SessionStep fsrsNext s (loadTopicsStep s topics).1
  | submit (s : SessionState) (text : Str) :
      SessionStep fsrsNext s (sendMessageStep s text).1
  | reply (s : SessionState) (response : Str) (now : Int) (h : 1 ≤ s.pending) :
      SessionStep fsrsNext s (callAIResolve fsrsNext now s response).1
  | replyError (s : SessionState) (errMsg : Str) (h : 1 ≤ s.pending) :
      SessionStep fsrsNext s (callAIReject s errMsg).1
  | nextClick (s : SessionState) (h : s.nextBtnDisabled = false) :
      SessionStep fsrsNext s (nextTopicStep s).1

/-- The initial state of a freshly opened review view over a vault. -/
def initialSession (docs : List Str) : SessionState :=
  { topics := [], currentTopicIndex := 0, conversation := [],
    isWaitingForAI := false, inputDisabled := false, nextBtnDisabled := false,
    docs := docs, pending := 0 }

/-- States reachable from the initial state by event steps. -/
def SessionReachable (fsrsNext : FSRSNext) (docs : List Str) (s : SessionState) : Prop :=
  Relation.ReflTransGen (SessionStep fsrsNext) (initialSession docs) s

/-- C7: when no line of the topic's document matches the topic-marker
regex with a trimmed name equal to the card's name, `updateTopicInNote`
performs no write: it returns no new content (part a — the update is not
partially applied), and at the session level the terminal branch leaves
the vault documents and the queue cursor unchanged while raising the
error `Notice` (part b); the cursor never advances automatically. -/
theorem C7_persistence_not_found (fsrsNext : FSRSNext) (topic : TopicCard)
    (newRating content : Str) (now : Int)
    (h : ∀ line ∈ splitOnChar '\n' content, ∀ cap,
      matchTopicMarker line = some cap → trimJS cap ≠ topic.name) :
    updateTopicInNote fsrsNext topic newRating content now = none ∧
    (∀ (s : SessionState) (response m r : Str) (t : TopicCard),
      parseXMLResponse response = .ok (m, some r) →
      s.topics[s.currentTopicIndex]? = some t →
      updateTopicInNote fsrsNext t (toLowerCaseJS r) (s.docs.getD t.file []) now = none →
      (callAIResolve fsrsNext now s response).1.docs = s.docs ∧
      (callAIResolve fsrsNext now s response).1.currentTopicIndex = s.currentTopicIndex ∧
      (callAIResolve fsrsNext now s response).2.noticeError = true) := by
  constructor
  · simp [updateTopicInNote, insertDataLine_none _ _ _ h]
  · intro s response m r t hp hi hu
    simp only [List.getD_eq_getElem?_getD] at hu
    simp [callAIResolve, addUI, hp, hi, hu]

/-- Witness for C7: a document with no matching marker line. -/
theorem C7_persistence_not_found_witness :
    updateTopicInNote (fun _ _ _ => ⟨0, 1, 1, 1, 1⟩)
      { name := str "T", file := 0, content := [], nextReview := some 0, rating := none,
        interval := some 1, stability := some 1, difficulty := some 1, reps := some 0 }
      (str "good") (str "# just a heading") 0 = none := by
  have h := C7_persistence_not_found (fun _ _ _ => ⟨0, 1, 1, 1, 1⟩)
    { name := str "T", file := 0, content := [], nextReview := some 0, rating := none,
      interval := some 1, stability := some 1, difficulty := some 1, reps := some 0 }
    (str "good") (str "# just a heading") 0 (by decide)
  exact h.1

/-- C6: every successful scheduling update persists the interval
`Math.max(1, scheduled_days)`: the written data comment (present among
the spliced lines) carries exactly that value, it is at least 1, and
`parseInt` reads it back unchanged, so the persisted interval is never
below one day. -/
theorem C6_interval_floor (fsrsNext : FSRSNext) (topic : TopicCard)
    (newRating content : Str) (now : Int) (newContent : Str) (nc : FSRSCardOut)
    (hnc : fsrsNext (cardOfTopic topic) now (mapRatingToFSRSRating newRating) = nc)
    (h : updateTopicInNote fsrsNext topic newRating content now = some newContent) :
    ∃ ls', insertDataLine topic.name
        (mkDataComment (isoDatePart nc.due) newRating (max 1 nc.scheduled_days)
          nc.stability nc.difficulty nc.reps)
        (splitOnChar '\n' content) = some ls' ∧
      newContent = joinChar '\n' ls' ∧
      mkDataComment (isoDatePart nc.due) newRating (max 1 nc.scheduled_days)
          nc.stability nc.difficulty nc.reps ∈ ls' ∧
      1 ≤ max 1 nc.scheduled_days ∧
      parseIntJS (intToStr (max 1 nc.scheduled_days)) = some (max 1 nc.scheduled_days) := by
  simp only [updateTopicInNote, hnc] at h
  rcases hins : insertDataLine topic.name
      (mkDataComment (isoDatePart nc.due) newRating (max 1 nc.scheduled_days)
        nc.stability nc.difficulty nc.reps)
      (splitOnChar '\n' content) with _ | ls'
  · rw [hins] at h
    exact absurd h (by simp)
  · rw [hins] at h
    simp at h
    exact ⟨ls', rfl, h.symm, insertDataLine_mem _ _ _ _ hins, le_max_left _ _,
      parseIntJS_intToStr _⟩

/-- Witness for C6 at a concrete one-marker document. -/
theorem C6_interval_floor_witness :
    (1 : Int) ≤ max 1 (0 : Int) ∧
    updateTopicInNote (fun _ _ _ => ⟨0, 1, 1, 0, 1⟩)
      { name := str "T", file := 0, content := [], nextReview := some 0, rating := none,
        interval := some 1, stability := some 1, difficulty := some 1, reps := some 0 }
      (str "good") (str "> [!topic] T") 0 =
      some (joinChar '\n' [str "> [!topic] T",
        mkDataComment (isoDatePart 0) (str "good") (max 1 0) 1 1 1]) := by
  have hmk : matchTopicMarker (str "> [!topic] T") = some (str "T") := by decide
  have htr : trimJS (str "T") = str "T" := by decide
  have hsp : splitOnChar '\n' (str "> [!topic] T") = [str "> [!topic] T"] := by decide
  have hins : insertDataLine (str "T")
      (mkDataComment (isoDatePart 0) (str "good") (max 1 0) 1 1 1)
      [str "> [!topic] T"] =
      some [str "> [!topic] T", mkDataComment (isoDatePart 0) (str "good") (max 1 0) 1 1 1] := by
    simp [insertDataLine, hmk, htr]
    decide
  have hup : updateTopicInNote (fun _ _ _ => ⟨0, 1, 1, 0, 1⟩)
      { name := str "T", file := 0, content := [], nextReview := some 0, rating := none,
        interval := some 1, stability := some 1, difficulty := some 1, reps := some 0 }
      (str "good") (str "> [!topic] T") 0 =
      some (joinChar '\n' [str "> [!topic] T",
        mkDataComment (isoDatePart 0) (str "good") (max 1 0) 1 1 1]) := by
    simp only [updateTopicInNote, hsp]
    rw [hins]
    rfl
  obtain ⟨ls', h1, h2, h3, h4, h5⟩ := C6_interval_floor _ _ _ _ _ _ _ rfl hup
  exact ⟨h4, hup⟩

/-! The malformed-reply path and the `awaitingReply` gate (C4, C5), the
scanner's reps/rating relationship (C9), and the unvalidated rating of
the terminal path (C10). -/

/-- Effects of resolving a reply that parses with a non-null rating and a
current topic: both persistence branches render the tutor message and
the completion message, record the lowercased rating as handed to
`updateTopicInNote`, disable the input and clear the gate. -/
theorem callAIResolve_rating_effects (fsrsNext : FSRSNext) (now : Int) (s : SessionState)
    (response m r : Str) (t : TopicCard)
    (hp : parseXMLResponse response = .ok (m, some r))
    (hi : s.topics[s.currentTopicIndex]? = some t) :
    (callAIResolve fsrsNext now s response).2.persistRating = some (toLowerCaseJS r) ∧
    (callAIResolve fsrsNext now s response).2.uiMessages =
      [(str "Tutor", m), (str "System", str "Review completed")] ∧
    (callAIResolve fsrsNext now s response).1.inputDisabled = true ∧
    (callAIResolve fsrsNext now s response).1.isWaitingForAI = false ∧
    (callAIResolve fsrsNext now s response).2.issuedCall = false := by
  rcases hu : updateTopicInNote fsrsNext t (toLowerCaseJS r) (s.docs[t.file]?.getD []) now
    with _ | nd <;>
    simp [callAIResolve, addUI, noEffects, hp, hi, hu]

/-- C4 (amended): when the reply fails to parse — a missing `<message>`
or `<rating>` tag — the session surfaces the malformed-output error
message, changes no document and no topic, invokes no scheduler update
(`persistRating` is empty), disables the student input, clears the gate,
and issues no further call (no retry).  The original claim's decoding
failure also covers a rating outside the four labels; that case is *not*
an error in the code — see the counterexample. -/
theorem C4_malformed_reply (fsrsNext : FSRSNext) (now : Int) (s : SessionState)
    (response err : Str)
    (hp : parseXMLResponse response = .error err) :
    (callAIResolve fsrsNext now s response).1.docs = s.docs ∧
    (callAIResolve fsrsNext now s response).1.topics = s.topics ∧
    (callAIResolve fsrsNext now s response).1.inputDisabled = true ∧
    (callAIResolve fsrsNext now s response).1.isWaitingForAI = false ∧
    (callAIResolve fsrsNext now s response).2.persistRating = none ∧
    (callAIResolve fsrsNext now s response).2.issuedCall = false ∧
    (callAIResolve fsrsNext now s response).2.uiMessages =
      [(str "System", str "Error: Tutor did not return valid XML: " ++ response)] := by
  simp [callAIResolve, addUI, noEffects, hp]

/-- Witness for C4 at a concrete tag-free reply. -/
theorem C4_malformed_reply_witness :
    parseXMLResponse (str "I refuse to speak XML") =
      Except.error (str "No <message> tag found in response") ∧
    (callAIResolve (fun _ _ _ => ⟨0, 1, 1, 1, 1⟩) 0 (initialSession [])
      (str "I refuse to speak XML")).2.persistRating = none := by
  refine ⟨rfl, ?_⟩
  exact (C4_malformed_reply (fun _ _ _ => ⟨0, 1, 1, 1, 1⟩) 0 (initialSession [])
    (str "I refuse to speak XML") (str "No <message> tag found in response")
    rfl).2.2.2.2.1

/-- Counterexample to C4 as stated: the reply
`<message>ok</message><rating>excellent</rating>` does not decode into
the claimed verdict shape (`"excellent"` is none of the four enum
labels, and `mapRatingToFSRSRating` maps it to `undefined`), yet the
session raises no malformed-output error: it treats the reply as a
terminal rating, hands `"excellent"` to the scheduler update, and
renders the completion message. -/
theorem C4_counterexample :
    (mapRatingToFSRSRating (str "excellent") = none ∧
      str "excellent" ≠ str "again" ∧ str "excellent" ≠ str "hard" ∧
      str "excellent" ≠ str "good" ∧ str "excellent" ≠ str "easy") ∧
    parseXMLResponse (str "<message>ok</message><rating>excellent</rating>") =
      Except.ok (str "ok", some (str "excellent")) ∧
    (callAIResolve (fun _ _ _ => ⟨0, 1, 1, 1, 1⟩) 0
        { topics := [(⟨str "T", 0, [], some 0, none, some 1, some 1, some 1, some 0⟩ : TopicCard)],
          currentTopicIndex := 0, conversation := [], isWaitingForAI := true,
          inputDisabled := false, nextBtnDisabled := true, docs := [], pending := 1 }
        (str "<message>ok</message><rating>excellent</rating>")).2.persistRating =
      some (str "excellent") ∧
    (callAIResolve (fun _ _ _ => ⟨0, 1, 1, 1, 1⟩) 0
        { topics := [(⟨str "T", 0, [], some 0, none, some 1, some 1, some 1, some 0⟩ : TopicCard)],
          currentTopicIndex := 0, conversation := [], isWaitingForAI := true,
          inputDisabled := false, nextBtnDisabled := true, docs := [], pending := 1 }
        (str "<message>ok</message><rating>excellent</rating>")).2.uiMessages =
      [(str "Tutor", str "ok"), (str "System", str "Review completed")] := by
  have h := callAIResolve_rating_effects (fun _ _ _ => ⟨0, 1, 1, 1, 1⟩) 0
    { topics := [(⟨str "T", 0, [], some 0, none, some 1, some 1, some 1, some 0⟩ : TopicCard)],
      currentTopicIndex := 0, conversation := [], isWaitingForAI := true,
      inputDisabled := false, nextBtnDisabled := true, docs := [], pending := 1 }
    (str "<message>ok</message><rating>excellent</rating>") (str "ok") (str "excellent")
    (⟨str "T", 0, [], some 0, none, some 1, some 1, some 1, some 0⟩ : TopicCard)
    rfl rfl
  have hl : toLowerCaseJS (str "excellent") = str "excellent" := by decide
  rw [hl] at h
  exact ⟨by decide, rfl, h.1, h.2.1⟩

/-- `callAI`'s gate preserves the single-call invariant: entering it
either ignores the invocation (already waiting) or moves from zero to
one outstanding call with the flag set. -/
theorem callAIStart_gate (s : SessionState)
    (hinv : s.pending ≤ 1 ∧ (s.isWaitingForAI = true ↔ s.pending = 1)) :
    (callAIStart s).1.pending ≤ 1 ∧
      ((callAIStart s).1.isWaitingForAI = true ↔ (callAIStart s).1.pending = 1) := by
  cases hw : s.isWaitingForAI
  · have h0 : s.pending = 0 := by
      obtain ⟨h1, h2⟩ := hinv
      rw [hw] at h2
      simp at h2
      omega
    simp [callAIStart, hw, h0]
  · simpa [callAIStart, hw] using hinv

/-- Every branch of reply resolution clears the waiting flag and retires
the outstanding call. -/
theorem callAIResolve_clears_gate (fsrsNext : FSRSNext) (now : Int) (s : SessionState)
    (response : Str) :
    (callAIResolve fsrsNext now s response).1.isWaitingForAI = false ∧
    (callAIResolve fsrsNext now s response).1.pending = s.pending - 1 := by
  simp only [callAIResolve]
  split
  · simp
  · split
    · simp
    · split
      · simp
      · split <;> simp

/-- The gate invariant at every reachable session state: never more than
one outstanding Completion Service call, and `isWaitingForAI` set exactly
while one is outstanding. -/
theorem session_gate_invariant (fsrsNext : FSRSNext) (docs : List Str) (s : SessionState)
    (h : SessionReachable fsrsNext docs s) :
    s.pending ≤ 1 ∧ (s.isWaitingForAI = true ↔ s.pending = 1) := by
  induction h with
  | refl => simp [initialSession]
  | tail hr hstep ih =>
    rename_i b c
    cases hstep with
    | load topics =>
      rcases topics with _ | ⟨t0, ts⟩
      · simpa [loadTopicsStep] using ih
      · exact callAIStart_gate _ ih
    | submit text =>
      by_cases hc : trimJS text = [] ∨ b.isWaitingForAI = true
      · simpa [sendMessageStep, hc] using ih
      · unfold sendMessageStep
        rw [if_neg hc]
        exact callAIStart_gate _ ih
    | reply response now h1 =>
      obtain ⟨hw, hp⟩ := callAIResolve_clears_gate fsrsNext now b response
      obtain ⟨ih1, ih2⟩ := ih
      refine ⟨by rw [hp]; omega, ?_⟩
      rw [hw, hp]
      simp only [Bool.false_eq_true, false_iff]
      omega
    | replyError errMsg h1 =>
      obtain ⟨ih1, ih2⟩ := ih
      unfold callAIReject
      refine ⟨by simp; omega, ?_⟩
      simp only [Bool.false_eq_true, false_iff]
      omega
    | nextClick h1 =>
      by_cases hlt : b.currentTopicIndex < b.topics.length - 1
      · unfold nextTopicStep
        rw [if_pos hlt]
        exact callAIStart_gate _ ih
      · simpa [nextTopicStep, hlt] using ih

/-- C5 (amended): at every reachable session state at most one
Completion Service call is outstanding — the `isWaitingForAI` gate is
set exactly while one is — and while it is set both a tutor-turn
invocation (`callAI`) and a student submission (`sendMessage`) are
ignored outright: no state change, no queued call.  The original claim's
further assertion that the student input surface is disabled during the
suspension is false — see the counterexample: only the Next button is
disabled while waiting; the textarea stays enabled and the gate alone
prevents a second call. -/
theorem C5_single_outstanding_call (fsrsNext : FSRSNext) (docs : List Str)
    (s : SessionState) (h : SessionReachable fsrsNext docs s) :
    s.pending ≤ 1 ∧ (s.isWaitingForAI = true ↔ s.pending = 1) ∧
    (s.isWaitingForAI = true →
      callAIStart s = (s, false) ∧ ∀ text, sendMessageStep s text = (s, false)) := by
  obtain ⟨h1, h2⟩ := session_gate_invariant fsrsNext docs s h
  refine ⟨h1, h2, fun hw => ⟨?_, fun text => ?_⟩⟩
  · simp [callAIStart, hw]
  · simp [sendMessageStep, hw]

/-- Witness for C5 at the initial session state. -/
theorem C5_single_outstanding_call_witness :
    (initialSession []).pending ≤ 1 ∧
    ((initialSession []).isWaitingForAI = true ↔ (initialSession []).pending = 1) ∧
    ((initialSession []).isWaitingForAI = true →
      callAIStart (initialSession []) = (initialSession [], false) ∧
      ∀ text, sendMessageStep (initialSession []) text = (initialSession [], false)) :=
  C5_single_outstanding_call (fun _ _ _ => ⟨0, 1, 1, 1, 1⟩) [] (initialSession [])
    Relation.ReflTransGen.refl

/-- Counterexample to C5 as stated: immediately after `loadTopics`
issues the first tutor turn the session is reachable and suspended
(`isWaitingForAI = true`), yet the input textarea is *not* disabled —
the source disables it only on terminal or error paths, never while
waiting for a reply. -/
theorem C5_counterexample :
    SessionReachable (fun _ _ _ => ⟨0, 1, 1, 1, 1⟩) []
      (loadTopicsStep (initialSession [])
        [(⟨str "T", 0, [], some 0, none, some 1, some 1, some 1, some 0⟩ : TopicCard)]).1 ∧
    (loadTopicsStep (initialSession [])
      [(⟨str "T", 0, [], some 0, none, some 1, some 1, some 1, some 0⟩ : TopicCard)]).1.isWaitingForAI
      = true ∧
    (loadTopicsStep (initialSession [])
      [(⟨str "T", 0, [], some 0, none, some 1, some 1, some 1, some 0⟩ : TopicCard)]).1.inputDisabled
      = false := by
  refine ⟨Relation.ReflTransGen.single (SessionStep.load _ _), rfl, rfl⟩

/-- Every card the scanner emits is either a default new card or the
decoding of a 6-field payload. -/
theorem scanLines_mem_shape (now : Int) (fileIdx : Nat) (content : Str) :
    ∀ (n : Nat) (ls : List Str), ls.length ≤ n →
      ∀ t ∈ scanLines now fileIdx content ls,
        (∃ name, t = newTopicCard now fileIdx content name) ∨
        (∃ name payload, t = decodeTopicData now fileIdx content name payload) := by
  intro n
  induction n with
  | zero =>
    intro ls hl t ht
    rcases ls with _ | ⟨l, r⟩
    · simp [scanLines] at ht
    · simp at hl
  | succ n ih =>
    intro ls hl t ht
    rcases ls with _ | ⟨line, _ | ⟨next, rest2⟩⟩
    · simp [scanLines] at ht
    · rcases hm : matchTopicMarker line with _ | cap
      · simp [scanLines, hm] at ht
      · simp [scanLines, hm] at ht
        exact Or.inl ⟨trimJS cap, ht⟩
    · rcases hm : matchTopicMarker line with _ | cap
      · simp only [scanLines, hm] at ht
        exact ih _ (by simp at hl ⊢; omega) t ht
      · rcases hd : matchDataComment next with _ | payload
        · simp only [scanLines, hm, hd] at ht
          rcases List.mem_cons.mp ht with rfl | ht'
          · exact Or.inl ⟨trimJS cap, rfl⟩
          · exact ih _ (by simp at hl ⊢; omega) t ht'
        · simp only [scanLines, hm, hd] at ht
          rcases List.mem_cons.mp ht with rfl | ht'
          · exact Or.inr ⟨trimJS cap, payload, rfl⟩
          · exact ih _ (by simp at hl ⊢; omega) t ht'

/-- C9 (amended): of the claimed invariant `reps == 0 ⇔ rating absent`,
only one direction holds for scanned cards: a card without a rating is
necessarily a default new card and hence has `reps = 0`.  The converse
is false — the scanner decodes a 6-field payload without any validation,
so a stored comment can carry a completed rating together with
`reps = 0` (see the counterexample), and nothing the system persists is
re-checked on read-back. -/
theorem C9_scanned_rating_reps (now : Int) (docs : List Str) (t : TopicCard)
    (ht : t ∈ getAllTopics now docs) (hr : t.rating = none) : t.reps = some 0 := by
  unfold getAllTopics at ht
  rw [List.mem_join] at ht
  obtain ⟨chunk, hc, htc⟩ := ht
  rw [List.mem_map] at hc
  obtain ⟨p, hp, rfl⟩ := hc
  rcases scanLines_mem_shape now p.1 p.2 (splitOnChar '\n' p.2).length _ le_rfl t htc with
    ⟨name, rfl⟩ | ⟨name, payload, rfl⟩
  · rfl
  · unfold decodeTopicData at hr ⊢
    rcases hsp : splitOnChar ',' payload with
      _ | ⟨a, _ | ⟨b2, _ | ⟨c2, _ | ⟨d2, _ | ⟨e2, _ | ⟨f2, _ | ⟨g2, l⟩⟩⟩⟩⟩⟩⟩ <;>
      simp_all [newTopicCard]

/-- Witness for C9: a lone marker line scans to a ratingless card with
`reps = 0`. -/
theorem C9_scanned_rating_reps_witness :
    (newTopicCard 0 0 (str "> [!topic] T") (str "T")).reps = some 0 :=
  C9_scanned_rating_reps 0 [str "> [!topic] T"]
    (newTopicCard 0 0 (str "> [!topic] T") (str "T")) (List.Mem.head _) rfl

/-- Counterexample to C9 as stated: a document whose stored comment
carries the completed rating `good` together with `reps = 0` is decoded
as-is, yielding a card with `rating = some "good"` and `reps = some 0` —
the claimed biconditional fails in the `reps = 0 → rating absent`
direction. -/
theorem C9_counterexample :
    getAllTopics 0 [str "> [!topic] T\n> <!--2024-01-01,good,3,2.5,5.0,0-->"] =
      [decodeTopicData 0 0 (str "> [!topic] T\n> <!--2024-01-01,good,3,2.5,5.0,0-->")
        (str "T") (str "2024-01-01,good,3,2.5,5.0,0")] ∧
    (decodeTopicData 0 0 (str "> [!topic] T\n> <!--2024-01-01,good,3,2.5,5.0,0-->")
      (str "T") (str "2024-01-01,good,3,2.5,5.0,0")).rating = some (str "good") ∧
    (decodeTopicData 0 0 (str "> [!topic] T\n> <!--2024-01-01,good,3,2.5,5.0,0-->")
      (str "T") (str "2024-01-01,good,3,2.5,5.0,0")).reps = some 0 := by
  refine ⟨rfl, rfl, rfl⟩

/-- C10: a reply holding both tags whose trimmed rating text differs
from the literal `"null"` parses to that text verbatim — membership in
`{again, hard, good, easy}` is never checked — and the session's
terminal path lowercases it, hands it to the scheduler update
(`persistRating`), and splices into the note a data comment carrying
that very string as its rating field. -/
theorem C10_unvalidated_rating_written (response mraw rraw : Str)
    (hm : tagCapture (str "<message>") (str "</message>") response = some mraw)
    (hr : tagCapture (str "<rating>") (str "</rating>") response = some rraw)
    (hn : trimJS rraw ≠ str "null") :
    parseXMLResponse response = .ok (trimJS mraw, some (trimJS rraw)) ∧
    (∀ (fsrsNext : FSRSNext) (now : Int) (s : SessionState) (t : TopicCard),
      s.topics[s.currentTopicIndex]? = some t →
      (callAIResolve fsrsNext now s response).2.persistRating
        = some (toLowerCaseJS (trimJS rraw))) ∧
    (∀ (fsrsNext : FSRSNext) (topic : TopicCard) (content : Str) (now : Int)
        (newContent : Str) (nc : FSRSCardOut),
      fsrsNext (cardOfTopic topic) now
          (mapRatingToFSRSRating (toLowerCaseJS (trimJS rraw))) = nc →
      updateTopicInNote fsrsNext topic (toLowerCaseJS (trimJS rraw)) content now
        = some newContent →
      ∃ ls', newContent = joinChar '\n' ls' ∧
        mkDataComment (isoDatePart nc.due) (toLowerCaseJS (trimJS rraw))
          (max 1 nc.scheduled_days) nc.stability nc.difficulty nc.reps ∈ ls') := by
  have hparse : parseXMLResponse response = .ok (trimJS mraw, some (trimJS rraw)) := by
    simp [parseXMLResponse, hm, hr, hn]
  refine ⟨hparse, ?_, ?_⟩
  · intro fsrsNext now s t hi
    rcases hu : updateTopicInNote fsrsNext t (toLowerCaseJS (trimJS rraw))
        (s.docs[t.file]?.getD []) now with _ | nd <;>
      simp [callAIResolve, addUI, noEffects, hparse, hi, hu]
  · intro fsrsNext topic content now newContent nc hnc hu
    simp only [updateTopicInNote, hnc] at hu
    rcases hins : insertDataLine topic.name
        (mkDataComment (isoDatePart nc.due) (toLowerCaseJS (trimJS rraw))
          (max 1 nc.scheduled_days) nc.stability nc.difficulty nc.reps)
        (splitOnChar '\n' content) with _ | ls'
    · rw [hins] at hu
      exact absurd hu (by simp)
    · rw [hins] at hu
      simp at hu
      exact ⟨ls', hu.symm, insertDataLine_mem _ _ _ _ hins⟩

/-- Witness for C10 at the out-of-enum rating `excellent`. -/
theorem C10_unvalidated_rating_written_witness :
    parseXMLResponse (str "<message>ok</message><rating>excellent</rating>") =
      Except.ok (str "ok", some (str "excellent")) := by
  have h := (C10_unvalidated_rating_written
    (str "<message>ok</message><rating>excellent</rating>") (str "ok") (str "excellent")
    (by decide) (by decide) (by decide)).1
  have h1 : trimJS (str "ok") = str "ok" := by decide
  have h2 : trimJS (str "excellent") = str "excellent" := by decide
  rw [h1, h2] at h
  exact h

/-! The encode→decode round trip of the persisted scheduling state (C3):
character-class facts about the encoders, the data-comment matcher applied
to `mkDataComment`, and the comma-split of the written payload. -/


theorem startsWith_self_append (p s : Str) : startsWith p (p ++ s) = true := by
  induction p with
  | nil => rfl
  | cons c cs ih => simp [startsWith, ih]

theorem endsWith_append_self (s p : Str) : endsWith p (s ++ p) = true := by
  unfold endsWith
  rw [List.reverse_append]
  exact startsWith_self_append _ _

theorem splitOnChar_no_sep (sep : Char) (xs : Str) (hxs : ∀ c ∈ xs, ¬(c = sep)) :
    splitOnChar sep xs = [xs] := by
  induction xs with
  | nil => rfl
  | cons c cs ih =>
    unfold splitOnChar
    rw [if_neg (hxs c (by simp))]
    rw [ih (fun c hc => hxs c (by simp [hc]))]

theorem splitOnChar_append_cons (sep : Char) (xs ys : Str) (hxs : ∀ c ∈ xs, ¬(c = sep)) :
    splitOnChar sep (xs ++ sep :: ys) = xs :: splitOnChar sep ys := by
  induction xs with
  | nil => simp [splitOnChar]
  | cons c cs ih =>
    rw [List.cons_append]
    have hstep : splitOnChar sep (c :: (cs ++ sep :: ys)) =
        match splitOnChar sep (cs ++ sep :: ys) with
        | [] => [[c]]
        | s :: ss => (c :: s) :: ss := by
      conv_lhs => rw [splitOnChar]
      rw [if_neg (hxs c (by simp))]
    rw [hstep, ih (fun c hc => hxs c (by simp [hc]))]

theorem intToStr_chars (i : Int) : ∀ c ∈ intToStr i, c = '-' ∨ c.isDigit = true := by
  intro c hc
  unfold intToStr at hc
  split at hc
  · rcases List.mem_cons.mp hc with rfl | h'
    · exact Or.inl rfl
    · exact Or.inr (natToStr_digits _ c h')
  · exact Or.inr (natToStr_digits _ c hc)

theorem qToFixed1_chars (q : ℚ) : ∀ c ∈ qToFixed1 q, c = '-' ∨ c = '.' ∨ c.isDigit = true := by
  intro c hc
  unfold qToFixed1 at hc
  split at hc
  · rcases List.mem_cons.mp hc with rfl | h'
    · exact Or.inl rfl
    · rcases List.mem_append.mp h' with h2 | h2
      · exact Or.inr (Or.inr (natToStr_digits _ c h2))
      · rcases List.mem_cons.mp h2 with rfl | h3
        · exact Or.inr (Or.inl rfl)
        · simp only [List.mem_singleton] at h3
          subst h3
          exact Or.inr (Or.inr (digitChar_isDigit _ (by omega)))
  · rcases List.mem_append.mp hc with h2 | h2
    · exact Or.inr (Or.inr (natToStr_digits _ c h2))
    · rcases List.mem_cons.mp h2 with rfl | h3
      · exact Or.inr (Or.inl rfl)
      · simp only [List.mem_singleton] at h3
        subst h3
        exact Or.inr (Or.inr (digitChar_isDigit _ (by omega)))

theorem isoDatePart_chars (t : Int) : ∀ c ∈ isoDatePart t, c = '-' ∨ c.isDigit = true := by
  intro c hc
  unfold isoDatePart at hc
  rcases List.mem_append.mp hc with h1 | h1
  · exact Or.inr (padZeros_digits _ _ (natToStr_digits _) c h1)
  · rcases List.mem_cons.mp h1 with rfl | h2
    · exact Or.inl rfl
    · rcases List.mem_append.mp h2 with h3 | h3
      · exact Or.inr (padZeros_digits _ _ (natToStr_digits _) c h3)
      · rcases List.mem_cons.mp h3 with rfl | h4
        · exact Or.inl rfl
        · exact Or.inr (padZeros_digits _ _ (natToStr_digits _) c h4)

theorem field_char_safe (c : Char) (h : c = '-' ∨ c = '.' ∨ c.isDigit = true) :
    ¬(c = ',') ∧ isTerm c = false := by
  rcases h with rfl | rfl | h
  · exact ⟨by decide, by decide⟩
  · exact ⟨by decide, by decide⟩
  · have := isDigit_ne c h
    exact ⟨this.2.2.1, this.2.2.2.2.2⟩

theorem payload_chars_safe (dstr rating : Str) (sd : Int) (st df : ℚ) (rp : Int)
    (hdate : ∀ c ∈ dstr, c = '-' ∨ c.isDigit = true)
    (hrat : ∀ c ∈ rating, ¬(c = ',') ∧ isTerm c = false) :
    ∀ c ∈ dstr ++ ',' :: (rating ++ ',' :: (intToStr sd ++ ',' :: (qToFixed1 st ++
      ',' :: (qToFixed1 df ++ ',' :: intToStr rp)))), isTerm c = false := by
  intro c hc
  rcases List.mem_append.mp hc with h1 | h1
  · exact (field_char_safe c ((hdate c h1).imp_right Or.inr)).2
  rcases List.mem_cons.mp h1 with rfl | h1
  · decide
  rcases List.mem_append.mp h1 with h2 | h2
  · exact (hrat c h2).2
  rcases List.mem_cons.mp h2 with rfl | h2
  · decide
  rcases List.mem_append.mp h2 with h3 | h3
  · exact (field_char_safe c ((intToStr_chars _ c h3).imp_right Or.inr)).2
  rcases List.mem_cons.mp h3 with rfl | h3
  · decide
  rcases List.mem_append.mp h3 with h4 | h4
  · exact (field_char_safe c (qToFixed1_chars _ c h4)).2
  rcases List.mem_cons.mp h4 with rfl | h4
  · decide
  rcases List.mem_append.mp h4 with h5 | h5
  · exact (field_char_safe c (qToFixed1_chars _ c h5)).2
  rcases List.mem_cons.mp h5 with rfl | h5
  · decide
  exact (field_char_safe c ((intToStr_chars _ c h5).imp_right Or.inr)).2

theorem matchDataComment_mkDataComment (d r : Str) (i : Int) (st df : ℚ) (rp : Int)
    (hterm : noTerm (d ++ ',' :: (r ++ ',' :: (intToStr i ++ ',' :: (qToFixed1 st ++
      ',' :: (qToFixed1 df ++ ',' :: intToStr rp))))) = true) :
    matchDataComment (mkDataComment d r i st df rp) =
      some (d ++ ',' :: (r ++ ',' :: (intToStr i ++ ',' :: (qToFixed1 st ++
        ',' :: (qToFixed1 df ++ ',' :: intToStr rp))))) := by
  obtain ⟨P, hP⟩ : ∃ P, d ++ ',' :: (r ++ ',' :: (intToStr i ++ ',' :: (qToFixed1 st ++
      ',' :: (qToFixed1 df ++ ',' :: intToStr rp)))) = P := ⟨_, rfl⟩
  rw [hP] at hterm ⊢
  have hform : mkDataComment d r i st df rp =
      '>' :: ' ' :: '<' :: '!' :: '-' :: '-' :: (P ++ '-' :: '-' :: ['>']) := by
    rw [← hP]
    simp [mkDataComment, List.append_assoc]
  rw [hform]
  have hPlen : 1 ≤ P.length := by
    rw [← hP]
    simp [List.length_append]
    omega
  have hdrop : dropWS (' ' :: '<' :: '!' :: '-' :: '-' :: (P ++ '-' :: '-' :: ['>'])) =
      '<' :: '!' :: '-' :: '-' :: (P ++ '-' :: '-' :: ['>']) := by
    unfold dropWS
    rw [List.dropWhile_cons_of_pos (by decide), List.dropWhile_cons_of_neg (by decide)]
  have hsw : startsWith (str "<!--") ('<' :: '!' :: '-' :: '-' :: (P ++ '-' :: '-' :: ['>'])) =
      true := by
    have h4 : (str "<!--" : Str) = ['<', '!', '-', '-'] := by decide
    rw [h4]
    exact startsWith_self_append ['<', '!', '-', '-'] (P ++ '-' :: '-' :: ['>'])
  have hlen : 4 ≤ (P ++ '-' :: '-' :: ['>']).length := by
    simp [List.length_append]
    omega
  have hend : endsWith (str "-->") (P ++ '-' :: '-' :: ['>']) = true := by
    have h3 : ('-' :: '-' :: ['>'] : Str) = str "-->" := by decide
    rw [h3]
    exact endsWith_append_self _ _
  have htake : (P ++ '-' :: '-' :: ['>']).take ((P ++ '-' :: '-' :: ['>']).length - 3) = P := by
    have hl : (P ++ '-' :: '-' :: ['>']).length - 3 = P.length := by
      simp [List.length_append]
    rw [hl]
    exact List.take_left P _
  simp only [matchDataComment, hdrop, hsw, if_true]
  rw [List.drop_succ_cons, List.drop_succ_cons, List.drop_succ_cons, List.drop_succ_cons,
    List.drop_zero]
  rw [if_pos (by rw [hend]; simp [List.length_append]; omega)]
  rw [htake]
  rw [if_pos hterm]

theorem decodeTopicData_six (now : Int) (fileIdx : Nat) (content name f0 f1 f2 f3 f4 f5 payload : Str)
    (hsp : splitOnChar ',' payload = [f0, f1, f2, f3, f4, f5]) :
    decodeTopicData now fileIdx content name payload =
      { name := name, file := fileIdx, content := content,
        nextReview := parseJSDate f0, rating := some f1, interval := parseIntJS f2,
        stability := parseFloatJS f3, difficulty := parseFloatJS f4, reps := parseIntJS f5 } := by
  unfold decodeTopicData
  rw [hsp]

theorem scanLines_pair (now : Int) (fileIdx : Nat) (content marker dc cap payload : Str)
    (hm : matchTopicMarker marker = some cap) (hd : matchDataComment dc = some payload) :
    scanLines now fileIdx content [marker, dc] =
      [decodeTopicData now fileIdx content (trimJS cap) payload] := by
  simp [scanLines, hm, hd]

theorem getAllTopics_single (now : Int) (doc : Str) :
    getAllTopics now [doc] = scanLines now 0 doc (splitOnChar '\n' doc) := by
  simp [getAllTopics]

theorem splitOnChar_payload (dstr rating : Str) (sd : Int) (st df : ℚ) (rp : Int)
    (hdate : ∀ c ∈ dstr, c = '-' ∨ c.isDigit = true)
    (hrat : ∀ c ∈ rating, ¬(c = ',') ∧ isTerm c = false) :
    splitOnChar ',' (dstr ++ ',' :: (rating ++ ',' :: (intToStr sd ++ ',' :: (qToFixed1 st ++
      ',' :: (qToFixed1 df ++ ',' :: intToStr rp))))) =
      [dstr, rating, intToStr sd, qToFixed1 st, qToFixed1 df, intToStr rp] := by
  rw [splitOnChar_append_cons ',' dstr _
    (fun c hc => (field_char_safe c ((hdate c hc).imp_right Or.inr)).1)]
  rw [splitOnChar_append_cons ',' rating _ (fun c hc => (hrat c hc).1)]
  rw [splitOnChar_append_cons ',' (intToStr sd) _
    (fun c hc => (field_char_safe c ((intToStr_chars _ c hc).imp_right Or.inr)).1)]
  rw [splitOnChar_append_cons ',' (qToFixed1 st) _
    (fun c hc => (field_char_safe c (qToFixed1_chars _ c hc)).1)]
  rw [splitOnChar_append_cons ',' (qToFixed1 df) _
    (fun c hc => (field_char_safe c (qToFixed1_chars _ c hc)).1)]
  rw [splitOnChar_no_sep ',' (intToStr rp)
    (fun c hc => (field_char_safe c ((intToStr_chars _ c hc).imp_right Or.inr)).1)]

/-- C3: the scheduling state handed back by the scheduler — a next-review
day, the rating, the (floored) interval, stability, difficulty and reps —
is encoded into the inline data comment by `updateTopicInNote` and
reproduced by the scan of `getAllTopics`: the next-review date decodes to
the same UTC-midnight timestamp, rating, interval and reps come back
exactly, and stability and difficulty come back within the 1-decimal
rounding of `toFixed(1)` (at most 1/20 away).  The rating must be free of
commas and line terminators (the four enum labels are), the date must lie
in the four-digit-year range of `toISOString`, and stability and
difficulty are nonnegative as FSRS produces them. -/
theorem C3_encode_decode_roundtrip (fsrsNext : FSRSNext) (topic : TopicCard)
    (rating : Str) (now now2 day : Int) (st df : ℚ) (sd rp : Int)
    (hnc : fsrsNext (cardOfTopic topic) now (mapRatingToFSRSRating rating) =
      ⟨86400000 * day, st, df, sd, rp⟩)
    (hname : topic.name = str "T")
    (hrat : ∀ c ∈ rating, ¬(c = ',') ∧ isTerm c = false)
    (h0 : 0 ≤ day + 719468)
    (h9999 : yearOfRata (day + 719468).toNat ≤ 9999)
    (hst : 0 ≤ st) (hdf : 0 ≤ df) :
    ∃ newContent,
      updateTopicInNote fsrsNext topic rating (str "> [!topic] T") now = some newContent ∧
      ∃ t, getAllTopics now2 [newContent] = [t] ∧
        t.nextReview = some (86400000 * day) ∧
        t.rating = some rating ∧
        t.interval = some (max 1 sd) ∧
        (∃ qs, t.stability = some qs ∧ |qs - st| ≤ 1/20) ∧
        (∃ qd, t.difficulty = some qd ∧ |qd - df| ≤ 1/20) ∧
        t.reps = some rp := by
  obtain ⟨dc, hdc⟩ : ∃ dc, mkDataComment (isoDatePart (86400000 * day)) rating
      (max 1 sd) st df rp = dc := ⟨_, rfl⟩
  -- the payload between the comment delimiters
  obtain ⟨P, hP⟩ : ∃ P, isoDatePart (86400000 * day) ++ ',' :: (rating ++ ',' ::
      (intToStr (max 1 sd) ++ ',' :: (qToFixed1 st ++ ',' :: (qToFixed1 df ++ ',' ::
        intToStr rp)))) = P := ⟨_, rfl⟩
  have hterm : noTerm P = true := by
    rw [← hP]
    simp only [noTerm, List.all_eq_true]
    intro c hc
    simp only [Bool.not_eq_true']
    exact payload_chars_safe _ _ _ _ _ _ (isoDatePart_chars _) hrat c hc
  have hmdc : matchDataComment dc = some P := by
    rw [← hdc, ← hP]
    exact matchDataComment_mkDataComment _ _ _ _ _ _ (hP ▸ hterm)
  have hdcnl : ∀ c ∈ dc, ¬(c = '\n') := by
    intro c hc
    rw [← hdc] at hc
    unfold mkDataComment at hc
    have hsafe : ∀ a ∈ (isoDatePart (86400000 * day) ++ ',' :: (rating ++ ',' ::
        (intToStr (max 1 sd) ++ ',' :: (qToFixed1 st ++ ',' :: (qToFixed1 df ++ ',' ::
          intToStr rp))))), isTerm a = false :=
      payload_chars_safe _ _ _ _ _ _ (isoDatePart_chars _) hrat
    rcases List.mem_cons.mp hc with rfl | hc; · decide
    rcases List.mem_cons.mp hc with rfl | hc; · decide
    rcases List.mem_cons.mp hc with rfl | hc; · decide
    rcases List.mem_cons.mp hc with rfl | hc; · decide
    rcases List.mem_cons.mp hc with rfl | hc; · decide
    rcases List.mem_cons.mp hc with rfl | hc; · decide
    -- hc : c ∈ nested payload with the final arrow
    have : isTerm c = false ∨ c ∈ ('-' :: '-' :: ['>'] : Str) := by
      rcases List.mem_append.mp hc with h1 | h1
      · exact Or.inl (hsafe c (List.mem_append.mpr (Or.inl h1)))
      rcases List.mem_cons.mp h1 with rfl | h1
      · exact Or.inl (hsafe ',' (by simp))
      rcases List.mem_append.mp h1 with h2 | h2
      · exact Or.inl (hsafe c (by simp [h2]))
      rcases List.mem_cons.mp h2 with rfl | h2
      · exact Or.inl (hsafe ',' (by simp))
      rcases List.mem_append.mp h2 with h3 | h3
      · exact Or.inl (hsafe c (by simp [h3]))
      rcases List.mem_cons.mp h3 with rfl | h3
      · exact Or.inl (hsafe ',' (by simp))
      rcases List.mem_append.mp h3 with h4 | h4
      · exact Or.inl (hsafe c (by simp [h4]))
      rcases List.mem_cons.mp h4 with rfl | h4
      · exact Or.inl (hsafe ',' (by simp))
      rcases List.mem_append.mp h4 with h5 | h5
      · exact Or.inl (hsafe c (by simp [h5]))
      rcases List.mem_cons.mp h5 with rfl | h5
      · exact Or.inl (hsafe ',' (by simp))
      rcases List.mem_append.mp h5 with h6 | h6
      · exact Or.inl (hsafe c (by simp [h6]))
      · exact Or.inr h6
    rcases this with h | h
    · intro hcn
      rw [hcn] at h
      exact absurd h (by decide)
    · rcases List.mem_cons.mp h with rfl | h; · decide
      rcases List.mem_cons.mp h with rfl | h; · decide
      simp only [List.mem_singleton] at h
      subst h
      decide
  have hins : insertDataLine (str "T") dc [str "> [!topic] T"] =
      some [str "> [!topic] T", dc] := by
    simp [insertDataLine]
    decide
  have hsp1 : splitOnChar '\n' (str "> [!topic] T") = [str "> [!topic] T"] := by decide
  have hup : updateTopicInNote fsrsNext topic rating (str "> [!topic] T") now =
      some (joinChar '\n' [str "> [!topic] T", dc]) := by
    simp only [updateTopicInNote, hnc, hname, hsp1]
    rw [show mkDataComment (isoDatePart (FSRSCardOut.mk (86400000 * day) st df sd rp).due)
        rating (max 1 (FSRSCardOut.mk (86400000 * day) st df sd rp).scheduled_days)
        (FSRSCardOut.mk (86400000 * day) st df sd rp).stability
        (FSRSCardOut.mk (86400000 * day) st df sd rp).difficulty
        (FSRSCardOut.mk (86400000 * day) st df sd rp).reps = dc from hdc]
    rw [hins]
    rfl
  refine ⟨joinChar '\n' [str "> [!topic] T", dc], hup, ?_⟩
  have hjoin : joinChar '\n' [str "> [!topic] T", dc] = str "> [!topic] T" ++ '\n' :: dc := rfl
  have hsplit2 : splitOnChar '\n' (str "> [!topic] T" ++ '\n' :: dc) =
      [str "> [!topic] T", dc] := by
    rw [splitOnChar_append_cons '\n' _ _ (by decide)]
    rw [splitOnChar_no_sep '\n' dc hdcnl]
  have hmk : matchTopicMarker (str "> [!topic] T") = some (str "T") := by decide
  have hga : getAllTopics now2 [joinChar '\n' [str "> [!topic] T", dc]] =
      [decodeTopicData now2 0 (joinChar '\n' [str "> [!topic] T", dc]) (trimJS (str "T")) P] := by
    rw [getAllTopics_single, hjoin, hsplit2]
    exact scanLines_pair _ _ _ _ _ _ _ hmk hmdc
  have hsplit6 : splitOnChar ',' P =
      [isoDatePart (86400000 * day), rating, intToStr (max 1 sd), qToFixed1 st,
        qToFixed1 df, intToStr rp] := by
    rw [← hP]
    exact splitOnChar_payload _ _ _ _ _ _ (isoDatePart_chars _) hrat
  have hdec := decodeTopicData_six now2 0 (joinChar '\n' [str "> [!topic] T", dc])
    (trimJS (str "T")) _ _ _ _ _ _ P hsplit6
  rw [hdec] at hga
  refine ⟨_, hga, ?_, rfl, ?_, ?_, ?_, ?_⟩
  · exact parseJSDate_isoDatePart day h0 h9999
  · exact parseIntJS_intToStr (max 1 sd)
  · exact ⟨(fix1 st : ℚ) / 10, (parseFloatJS_qToFixed1 st hst).1,
      (parseFloatJS_qToFixed1 st hst).2⟩
  · exact ⟨(fix1 df : ℚ) / 10, (parseFloatJS_qToFixed1 df hdf).1,
      (parseFloatJS_qToFixed1 df hdf).2⟩
  · exact parseIntJS_intToStr rp

/-- Witness for C3 at a concrete scheduler output and the epoch date. -/
theorem C3_encode_decode_roundtrip_witness :
    ∃ newContent,
      updateTopicInNote (fun _ _ _ => ⟨86400000 * 0, 1, 1, 0, 1⟩)
        (⟨str "T", 0, [], some 0, none, some 1, some 1, some 1, some 0⟩ : TopicCard)
        (str "good") (str "> [!topic] T") 5 = some newContent ∧
      ∃ t, getAllTopics 7 [newContent] = [t] ∧
        t.nextReview = some (86400000 * 0) ∧
        t.rating = some (str "good") ∧
        t.interval = some (max 1 0) ∧
        (∃ qs, t.stability = some qs ∧ |qs - 1| ≤ 1/20) ∧
        (∃ qd, t.difficulty = some qd ∧ |qd - 1| ≤ 1/20) ∧
        t.reps = some 1 :=
  C3_encode_decode_roundtrip (fun _ _ _ => ⟨86400000 * 0, 1, 1, 0, 1⟩)
    (⟨str "T", 0, [], some 0, none, some 1, some 1, some 1, some 0⟩ : TopicCard)
    (str "good") 5 7 0 1 1 0 1 rfl rfl (by decide) (by decide) (by decide)
    (by norm_num) (by norm_num)
